import Mathlib

/-!
Verification of the blaj memory-trainer core (SeungKang/blaj).

This file shallowly embeds the Go source of the repository:
  * `internal/progctl/progctl.go` — pointer resolver (`lookupAddr`),
    save/restore/write keydown handlers, session termination (`exited`),
    supervisor notification dispatch, attach-time module lookup
    (`getRequiredModules`);
  * `internal/kernel32/kernel32.go` — module enumeration
    (`IterProcessModules`, `isEnumProcessModulesExErrFatal`);
  * `internal/appconfig/appconfig.go` — `[Writer]` section parsing and
    validation.

Machine addresses (`uintptr`) are modeled as `Nat`; overflow of address
arithmetic is not load-bearing for any property proved here.  Remote memory
is a function `Nat → Nat` (byte-addressed).  Go's `map` types are modeled
as functions into `Option` or as association lists, as noted at each
definition.  Fallible Go calls return pairs with an `Option` error or
`Except`, mirroring the Go multiple-return convention.
-/

set_option autoImplicit false

namespace Blaj

/-- An error produced by a remote read primitive (kiwi's
`ReadUint32`/`ReadUint64`); the payload is an abstract code. -/
inductive RErr where
  | mk (code : Nat)
deriving DecidableEq, Repr

/-- Errors returned by `lookupAddr` (progctl.go:420-444).  `readFailedAt`
carries the value that the Go code interpolates into
`"failed to read from target process at 0x%x"` — which is the first return
value of the failed `addrFn` call (the variable `addr` after it was
overwritten), together with the wrapped underlying error.  `emptyOffsets`
models the index-out-of-range panic of `ptr.Addrs[0]` on an empty slice. -/
inductive LookupErr where
  | readFailedAt (reported : Nat) (underlying : RErr)
  | emptyOffsets
deriving DecidableEq, Repr

/-- The loop body of `lookupAddr` (progctl.go:433-439): successively read a
pointer at `addr + offset` for each offset, propagating the first failure.
On failure the Go code returns `0` and an error annotated with the
(freshly overwritten) variable `addr`, i.e. the failed read's result. -/
def walkHops (addrFn : Nat → Nat × Option RErr) : Nat → List Nat → Nat × Option LookupErr
  | addr, [] => (addr, none)
  | addr, o :: os =>
    match addrFn (addr + o) with
    | (v, none) => walkHops addrFn v os
    | (v, some e) => (0, some (.readFailedAt v e))

/-- `lookupAddr` (progctl.go:420-444).  `base` is the chosen module base,
`addrs` is `ptr.Addrs`, `addrFn` the pointer-sized remote read.  A single
offset yields `base + start` with no read; otherwise the first offset is
read at `base + start`, the intermediate offsets are dereferenced by
`walkHops`, and the final offset is added without a read. -/
def lookupAddr (base : Nat) (addrs : List Nat) (addrFn : Nat → Nat × Option RErr) :
    Nat × Option LookupErr :=
  match addrs with
  | [] => (0, some .emptyOffsets)
  | start :: rest =>
    match rest with
    | [] => (base + start, none)
    | _ :: _ =>
      match addrFn (base + start) with
      | (v, some e) => (0, some (.readFailedAt v e))
      | (addr0, none) =>
        match walkHops addrFn addr0 rest.dropLast with
        | (_, some e) => (0, some e)
        | (p, none) => (p + rest.getLastD 0, none)

/-- `appconfig.Pointer` (appconfig.go:565-570): a parsed pointer chain.
`Addrs` are the offsets, `NBytes` the save/restore region size,
`OptModule` the optional (lower-cased) module-name override. -/
structure Pointer where
  Name : String
  Addrs : List Nat
  NBytes : Nat
  OptModule : String
deriving DecidableEq, Repr

/-- `appconfig.WritePointer` (appconfig.go:548-551). -/
structure WritePointer where
  Pointer : Pointer
  Data : List Nat
deriving DecidableEq, Repr

/-- `kernel32.Module` (kernel32.go:42-48); addresses and sizes as `Nat`. -/
structure Module where
  Filepath : String
  Filename : String
  BaseAddr : Nat
  EndAddr : Nat
  Size : Nat
deriving DecidableEq, Repr

/-- A remote read primitive that always succeeds, returning `f a`. -/
def totalRead (f : Nat → Nat) : Nat → Nat × Option RErr :=
  fun a => (f a, none)

theorem walkHops_totalRead (f : Nat → Nat) :
    ∀ (os : List Nat) (a : Nat),
      walkHops (totalRead f) a os = (os.foldl (fun p o => f (p + o)) a, none) := by
  intro os
  induction os with
  | nil => intro a; rfl
  | cons o os ih =>
    intro a
    simp only [walkHops, totalRead, List.foldl_cons]
    exact ih (f (a + o))

/-- **C1.** For every base `b`, pointer-sized read primitive and non-empty
offset list, the resolver returns `b + o₀` without invoking the read
primitive when there is exactly one offset (the result is the same for
every primitive `g`); with offsets `o₀ :: mid ++ [o_last]` it returns
`p + o_last` where `p` is obtained by reading at `b + o₀` and then at each
intermediate address `p + o_i`; the final offset is never dereferenced. -/
theorem lookupAddr_resolution :
    (∀ (base o : Nat) (g : Nat → Nat × Option RErr),
        lookupAddr base [o] g = (base + o, none)) ∧
    (∀ (base o0 olast : Nat) (mid : List Nat) (f : Nat → Nat),
        lookupAddr base (o0 :: (mid ++ [olast])) (totalRead f)
          = ((mid.foldl (fun p o => f (p + o)) (f (base + o0))) + olast, none)) := by
  constructor
  · intro base o g
    rfl
  · intro base o0 olast mid f
    cases mid with
    | nil =>
      simp [lookupAddr, totalRead, walkHops, List.getLastD]
    | cons m ms =>
      have h1 : (m :: (ms ++ [olast]) : List Nat) = (m :: ms) ++ [olast] := by simp
      simp only [lookupAddr, List.cons_append, totalRead]
      rw [h1, List.dropLast_concat, List.getLastD_concat, walkHops_totalRead]

/-- **C3.** `lookupAddr` annotates a failed intermediate read with the
*value returned by* the failed read (the variable `addr`, which the Go code
overwrites with `addrFn`'s result before formatting
`"failed to read from target process at 0x%x"`), not with the address whose
read failed.  Concretely: base `100`, offsets `[1, 2, 3]`, and a read
primitive that fails everywhere returning value `0` (as kiwi's readers do):
the read that failed was at address `100 + 1 = 101`, yet the error reports
`0`. -/
theorem lookupAddr_misreports_failing_address :
    lookupAddr 100 [1, 2, 3] (fun _ => (0, some (RErr.mk 7)))
        = (0, some (LookupErr.readFailedAt 0 (RErr.mk 7)))
      ∧ (100 : Nat) + 1 = 101 ∧ (0 : Nat) ≠ 101 := by
  refine ⟨rfl, rfl, by decide⟩

/-! ## Remote memory and the session's memory primitives

The target process's memory is byte-addressed; remote reads and writes and
the pointer-sized `addrFn` reader operate on it.  `Prims` packages the
three primitives that a `runningProgramRoutine` closes over (progctl.go:
179-189 builds `addrFn` from `proc.ReadUint32`/`ReadUint64`; `saveState`,
`restoreState` and `write` call `proc.ReadBytes`/`proc.WriteBytes`). -/

/-- Remote memory: a byte value at every address. -/
def Mem : Type := Nat → Nat

/-- `proc.ReadBytes addr n`: the `n` bytes at `addr, addr+1, …`. -/
def readBytesTot (mem : Mem) : Nat → Nat → List Nat
  | _, 0 => []
  | addr, n + 1 => mem addr :: readBytesTot mem (addr + 1) n

/-- Point update of memory. -/
def updateMem (mem : Mem) (a v : Nat) : Mem :=
  fun x => if x = a then v else mem x

/-- `proc.WriteBytes addr data`: store the bytes consecutively from `addr`. -/
def writeBytesTot (mem : Mem) : Nat → List Nat → Mem
  | _, [] => mem
  | addr, v :: rest => writeBytesTot (updateMem mem addr v) (addr + 1) rest

/-- A little-endian `k`-byte word read, modeling kiwi's
`ReadUint32` (`k = 4`) / `ReadUint64` (`k = 8`). -/
def readWordN (mem : Mem) : Nat → Nat → Nat
  | _, 0 => 0
  | addr, k + 1 => mem addr % 256 + 256 * readWordN mem (addr + 1) k

/-- The pointer-sized reader installed at attach (progctl.go:179-189):
width 4 bytes for a 32-bit target, 8 otherwise; never fails on the total
memory model. -/
def totalAddrFn (is32b : Bool) (mem : Mem) : Nat → Nat × Option RErr :=
  fun a => (readWordN mem a (if is32b then 4 else 8), none)

/-- The remote-I/O primitives a session closes over.  Each takes the
current remote memory; reads may fail, writes may fail, `addrFn` returns a
value together with an optional error (the Go pair-return). -/
structure Prims where
  addrFn : Mem → Nat → Nat × Option RErr
  readBytes : Mem → Nat → Nat → Except RErr (List Nat)
  writeBytes : Mem → Nat → List Nat → Except RErr Mem

/-- The primitives of a live target whose memory operations all succeed. -/
def totalPrims (is32b : Bool) : Prims where
  addrFn := totalAddrFn is32b
  readBytes := fun mem a n => .ok (readBytesTot mem a n)
  writeBytes := fun mem a d => .ok (writeBytesTot mem a d)

/-- The per-session immutable context: `runningProgramRoutine.base`
(primary module base) and `runningProgramRoutine.mods` (required modules
keyed by lower-cased name; Go map modeled as an association list). -/
structure Ctx where
  base : Nat
  mods : List (String × Module)

/-- Association-list lookup, modeling Go map indexing. -/
def lookupMod : List (String × Module) → String → Option Module
  | [], _ => none
  | kv :: rest, k => if kv.1 = k then some kv.2 else lookupMod rest k

/-- The `baseAddr` selection at the top of `saveState`/`restoreState`/
`write` (progctl.go:363-371 etc.): the primary base, or the overriding
module's base; `none` models the `"unknown module %q"` error path. -/
def baseForPtr (ctx : Ctx) (p : Pointer) : Option Nat :=
  if p.OptModule = "" then some ctx.base
  else (lookupMod ctx.mods p.OptModule).map Module.BaseAddr

/-- `progctl.programState` (progctl.go:475-479): one saved slot. -/
structure ProgramState where
  pointer : Pointer
  stateSet : Bool
  savedState : List Nat
deriving DecidableEq, Repr

/-- `runningProgramRoutine.states`: Go's `map[string]*programState`
modeled as a function into `Option`. -/
def StateMap : Type := String → Option ProgramState

/-- Errors surfaced by the keydown handler helpers.  The Go code formats
these with `fmt.Errorf`; the payloads keep what the messages interpolate
that matters here. -/
inductive PErr where
  | unknownModule (name : String)
  | lookupFailed (name : String) (e : LookupErr)
  | readFailed (name : String) (addr : Nat)
  | writeFailed (name : String) (addr : Nat)
  | saveFailed (name : String)
  | restoreFailed (name : String)
  | writeActionFailed (name : String)
deriving DecidableEq, Repr

/-- `runningProgramRoutine.saveState` (progctl.go:362-391): pick the base,
resolve the chain, read `NBytes` bytes, and only then set
`savedState`/`stateSet`.  Returns the (possibly updated) slot plus an
optional error, mirroring the in-place mutation of `*programState`. -/
def saveState (ctx : Ctx) (prims : Prims) (mem : Mem) (name : String)
    (st : ProgramState) : ProgramState × Option PErr :=
  match baseForPtr ctx st.pointer with
  | none => (st, some (.unknownModule st.pointer.OptModule))
  | some baseAddr =>
    match lookupAddr baseAddr st.pointer.Addrs (prims.addrFn mem) with
    | (_, some e) => (st, some (.lookupFailed name e))
    | (stateAddr, none) =>
      match prims.readBytes mem stateAddr st.pointer.NBytes with
      | .error _ => (st, some (.readFailed name stateAddr))
      | .ok savedState =>
        ({ st with savedState := savedState, stateSet := true }, none)

/-- `runningProgramRoutine.restoreState` (progctl.go:393-418): pick the
base, resolve the chain, write the saved bytes back. -/
def restoreState (ctx : Ctx) (prims : Prims) (mem : Mem) (name : String)
    (st : ProgramState) : Except PErr Mem :=
  match baseForPtr ctx st.pointer with
  | none => .error (.unknownModule st.pointer.OptModule)
  | some baseAddr =>
    match lookupAddr baseAddr st.pointer.Addrs (prims.addrFn mem) with
    | (_, some e) => .error (.lookupFailed name e)
    | (stateAddr, none) =>
      match prims.writeBytes mem stateAddr st.savedState with
      | .error _ => .error (.writeFailed name stateAddr)
      | .ok mem' => .ok mem'

/-- `restoreState` instrumented to also report the resolved effective
address on success; `restoreStateT_fst` relates it to `restoreState`. -/
def restoreStateT (ctx : Ctx) (prims : Prims) (mem : Mem) (name : String)
    (st : ProgramState) : Except PErr (Mem × Nat) :=
  match baseForPtr ctx st.pointer with
  | none => .error (.unknownModule st.pointer.OptModule)
  | some baseAddr =>
    match lookupAddr baseAddr st.pointer.Addrs (prims.addrFn mem) with
    | (_, some e) => .error (.lookupFailed name e)
    | (stateAddr, none) =>
      match prims.writeBytes mem stateAddr st.savedState with
      | .error _ => .error (.writeFailed name stateAddr)
      | .ok mem' => .ok (mem', stateAddr)

theorem restoreStateT_fst (ctx : Ctx) (prims : Prims) (mem : Mem)
    (name : String) (st : ProgramState) :
    restoreState ctx prims mem name st
      = (restoreStateT ctx prims mem name st).map Prod.fst := by
  unfold restoreState restoreStateT
  cases baseForPtr ctx st.pointer with
  | none => rfl
  | some baseAddr =>
    cases h : lookupAddr baseAddr st.pointer.Addrs (prims.addrFn mem) with
    | mk a e =>
      cases e with
      | none =>
        simp only [h]
        cases prims.writeBytes mem a st.savedState <;> rfl
      | some e' =>
        simp only [h]
        rfl

/-- The `v.SaveState` branch of `handleKeyboardEventWithError`
(progctl.go:324-335): iterate the group's pointers in order; skip a pointer
absent from the slot table; stop with a wrapping error on the first
`saveState` failure (the Go wrap drops the inner error: no `%w` at
progctl.go:332).  The slot map accumulates the successful saves made before
a failure, as the Go in-place mutations do. -/
def handleSaveKey (ctx : Ctx) (prims : Prims) (mem : Mem) :
    StateMap → List Pointer → StateMap × Option PErr
  | states, [] => (states, none)
  | states, p :: rest =>
    match states p.Name with
    | none => handleSaveKey ctx prims mem states rest
    | some st =>
      match saveState ctx prims mem p.Name st with
      | (st', none) =>
        handleSaveKey ctx prims mem
          (fun n => if n = p.Name then some st' else states n) rest
      | (_, some _) => (states, some (.saveFailed p.Name))

/-- The `v.RestoreState` branch of `handleKeyboardEventWithError`
(progctl.go:336-348): iterate the group's pointers; skip a pointer whose
slot is absent or unpopulated (`!hasIt || !state.stateSet`); stop with a
wrapping error on the first `restoreState` failure.  The slot map is never
modified on this path. -/
def handleRestoreKey (ctx : Ctx) (prims : Prims) (states : StateMap) :
    Mem → List Pointer → Except PErr Mem
  | mem, [] => .ok mem
  | mem, p :: rest =>
    match states p.Name with
    | none => handleRestoreKey ctx prims states mem rest
    | some st =>
      if st.stateSet then
        match restoreState ctx prims mem p.Name st with
        | .error _ => .error (.restoreFailed p.Name)
        | .ok mem' => handleRestoreKey ctx prims states mem' rest
      else handleRestoreKey ctx prims states mem rest

/-- `handleRestoreKey` instrumented with the trace of effective addresses
that the restore run resolves, in order; `handleRestoreKeyT_fst` relates
it to `handleRestoreKey`. -/
def handleRestoreKeyT (ctx : Ctx) (prims : Prims) (states : StateMap) :
    Mem → List Pointer → Except PErr Mem × List Nat
  | mem, [] => (.ok mem, [])
  | mem, p :: rest =>
    match states p.Name with
    | none => handleRestoreKeyT ctx prims states mem rest
    | some st =>
      if st.stateSet then
        match restoreStateT ctx prims mem p.Name st with
        | .error _ => (.error (.restoreFailed p.Name), [])
        | .ok (mem', a) =>
          let r := handleRestoreKeyT ctx prims states mem' rest
          (r.1, a :: r.2)
      else handleRestoreKeyT ctx prims states mem rest

theorem handleRestoreKeyT_fst (ctx : Ctx) (prims : Prims) (states : StateMap) :
    ∀ (ptrs : List Pointer) (mem : Mem),
      (handleRestoreKeyT ctx prims states mem ptrs).1
        = handleRestoreKey ctx prims states mem ptrs := by
  intro ptrs
  induction ptrs with
  | nil => intro mem; rfl
  | cons p rest ih =>
    intro mem
    simp only [handleRestoreKeyT, handleRestoreKey, restoreStateT_fst]
    cases states p.Name with
    | none => exact ih mem
    | some st =>
      by_cases hset : st.stateSet
      · simp only [hset, if_true]
        cases restoreStateT ctx prims mem p.Name st with
        | error e => rfl
        | ok m' => exact ih m'.1
      · simp only [hset, if_false]
        exact ih mem

/-- **C9.** If a save fails for a pointer — unknown module, failed address
resolution, or a failed remote read — the slot is returned exactly as it
was: the Go code only assigns `savedState`/`stateSet` after every fallible
step has succeeded (progctl.go:386-387). -/
theorem saveState_unchanged_on_error (ctx : Ctx) (prims : Prims) (mem : Mem)
    (name : String) (st st' : ProgramState) (e : PErr)
    (h : saveState ctx prims mem name st = (st', some e)) : st' = st := by
  unfold saveState at h
  split at h
  · exact ((Prod.mk.injEq _ _ _ _).mp h).1.symm
  · split at h
    · exact ((Prod.mk.injEq _ _ _ _).mp h).1.symm
    · split at h
      · exact ((Prod.mk.injEq _ _ _ _).mp h).1.symm
      · exact absurd ((Prod.mk.injEq _ _ _ _).mp h).2 (by simp)

/-- A concrete slot whose pointer names a module the session never
resolved: saving it fails and leaves it untouched. -/
def orphanSlot : ProgramState :=
  ⟨⟨"hpPointer_4", [16], 4, "extra.dll"⟩, false, []⟩

theorem saveState_unchanged_on_error_witness :
    saveState ⟨4096, []⟩ (totalPrims true) (fun _ => 0) "hpPointer_4" orphanSlot
        = (orphanSlot, some (PErr.unknownModule "extra.dll"))
      ∧ orphanSlot = orphanSlot :=
  ⟨rfl, saveState_unchanged_on_error ⟨4096, []⟩ (totalPrims true) (fun _ => 0)
    "hpPointer_4" orphanSlot orphanSlot (PErr.unknownModule "extra.dll") rfl⟩

/-- **C7.** Restore against unpopulated slots is a no-op.  Part one: if
every slot in the table is unpopulated, pressing the restore key returns
the memory unchanged with no error, for *any* remote primitives — so no
remote operation can have been performed; the slot table is not modified
on this path by construction (`handleRestoreKey` never writes to it).
Part two: a single pointer whose slot is unpopulated (or absent) is
skipped by the loop regardless of the other slots. -/
theorem restore_before_save_noop (ctx : Ctx) (prims : Prims)
    (states : StateMap) (mem : Mem) :
    ((∀ n st, states n = some st → st.stateSet = false) →
       ∀ (ptrs : List Pointer),
         handleRestoreKey ctx prims states mem ptrs = .ok mem) ∧
    (∀ (p : Pointer) (rest : List Pointer),
       (∀ st, states p.Name = some st → st.stateSet = false) →
       handleRestoreKey ctx prims states mem (p :: rest)
         = handleRestoreKey ctx prims states mem rest) := by
  constructor
  · intro hall ptrs
    induction ptrs with
    | nil => rfl
    | cons p rest ih =>
      simp only [handleRestoreKey]
      cases hps : states p.Name with
      | none => exact ih
      | some st =>
        have hfalse := hall p.Name st hps
        simp [hfalse, ih]
  · intro p rest hp
    simp only [handleRestoreKey]
    cases hps : states p.Name with
    | none => rfl
    | some st =>
      have hfalse := hp st hps
      simp [hfalse]

/-- A one-slot table, unpopulated, used to exercise
`restore_before_save_noop` concretely. -/
def freshStates : StateMap :=
  fun n => if n = "xPointer_4" then some ⟨⟨"xPointer_4", [32], 4, ""⟩, false, []⟩ else none

theorem restore_before_save_noop_witness :
    (∀ n st, freshStates n = some st → st.stateSet = false)
      ∧ handleRestoreKey ⟨4096, []⟩ (totalPrims false) freshStates (fun _ => 0)
          [⟨"xPointer_4", [32], 4, ""⟩] = .ok (fun _ => 0) := by
  have hall : ∀ n st, freshStates n = some st → st.stateSet = false := by
    intro n st h
    by_cases hn : n = "xPointer_4"
    · subst hn
      rw [show freshStates "xPointer_4"
        = some ⟨⟨"xPointer_4", [32], 4, ""⟩, false, []⟩ from rfl,
        Option.some.injEq] at h
      rw [← h]
    · simp [freshStates, hn] at h
  exact ⟨hall,
    (restore_before_save_noop ⟨4096, []⟩ (totalPrims false) freshStates (fun _ => 0)).1
      hall [⟨"xPointer_4", [32], 4, ""⟩]⟩

/-! ## End-to-end save/restore round trip (C2) -/

/-- The effective address a pointer resolves to against memory `mem`
(with the session's total reader): the first component of `lookupAddr`
from the pointer's chosen base. -/
def effAddr (ctx : Ctx) (is32b : Bool) (mem : Mem) (p : Pointer) : Nat :=
  (lookupAddr ((baseForPtr ctx p).getD 0) p.Addrs (totalAddrFn is32b mem)).1

theorem lookupAddr_totalRead_ok (base : Nat) (f : Nat → Nat) :
    ∀ (addrs : List Nat), addrs ≠ [] →
      lookupAddr base addrs (totalRead f)
        = ((lookupAddr base addrs (totalRead f)).1, none) := by
  intro addrs h
  cases addrs with
  | nil => exact absurd rfl h
  | cons a rest =>
    cases rest with
    | nil => rfl
    | cons b rs =>
      simp only [lookupAddr, totalRead]
      rw [walkHops_totalRead]

theorem writeBytesTot_readBytesTot (m0 : Mem) :
    ∀ (n : Nat) (m : Mem) (a : Nat),
      writeBytesTot m a (readBytesTot m0 a n)
        = fun x => if a ≤ x ∧ x < a + n then m0 x else m x := by
  intro n
  induction n with
  | zero =>
    intro m a
    funext x
    simp only [readBytesTot, writeBytesTot]
    rw [if_neg (by omega)]
  | succ n ih =>
    intro m a
    funext x
    simp only [readBytesTot, writeBytesTot]
    simp only [ih]
    by_cases hx : a ≤ x ∧ x < a + (n + 1)
    · rw [if_pos hx]
      by_cases h1 : a + 1 ≤ x ∧ x < a + 1 + n
      · rw [if_pos h1]
      · rw [if_neg h1]
        have hxa : x = a := by omega
        simp [updateMem, hxa]
    · rw [if_neg hx, if_neg (show ¬(a + 1 ≤ x ∧ x < a + 1 + n) by omega)]
      have hxa : x ≠ a := by omega
      simp [updateMem, hxa]

theorem readBytesTot_congr (m1 m2 : Mem) :
    ∀ (n a : Nat), (∀ x, a ≤ x → x < a + n → m1 x = m2 x) →
      readBytesTot m1 a n = readBytesTot m2 a n := by
  intro n
  induction n with
  | zero => intro a _; rfl
  | succ n ih =>
    intro a h
    simp only [readBytesTot]
    rw [h a (Nat.le_refl a) (by omega),
      ih (a + 1) (fun x hx1 hx2 => h x (by omega) (by omega))]

theorem restoreStateT_total_eval (ctx : Ctx) (is32b : Bool) (m : Mem)
    (name : String) (st : ProgramState) (ba sa : Nat)
    (hb : baseForPtr ctx st.pointer = some ba)
    (hl : lookupAddr ba st.pointer.Addrs (totalAddrFn is32b m) = (sa, none)) :
    restoreStateT ctx (totalPrims is32b) m name st
      = .ok (writeBytesTot m sa st.savedState, sa) := by
  unfold restoreStateT
  rw [hb]
  show (match lookupAddr ba st.pointer.Addrs (totalAddrFn is32b m) with
    | (_, some e) => Except.error (PErr.lookupFailed name e)
    | (stateAddr, none) =>
      match (totalPrims is32b).writeBytes m stateAddr st.savedState with
      | .error _ => Except.error (PErr.writeFailed name stateAddr)
      | .ok mem' => Except.ok (mem', stateAddr)) = _
  rw [hl]
  rfl

/-- The restore loop, run with the total primitives from a slot table whose
slots for `ptrs` all hold bytes captured from `m0` at addresses `A p`,
and whose actual run resolves exactly those addresses again, rewrites
memory to agree with `m0` on the union of the slots' regions and leaves
every other byte of `m` unchanged. -/
theorem restore_aux (ctx : Ctx) (is32b : Bool) (states : StateMap) (m0 : Mem)
    (A : Pointer → Nat) :
    ∀ (ptrs : List Pointer) (m : Mem),
      (∀ p ∈ ptrs, states p.Name
          = some ⟨p, true, readBytesTot m0 (A p) p.NBytes⟩) →
      (handleRestoreKeyT ctx (totalPrims is32b) states m ptrs).2 = ptrs.map A →
      handleRestoreKey ctx (totalPrims is32b) states m ptrs
        = .ok (fun x =>
            if ∃ q ∈ ptrs, A q ≤ x ∧ x < A q + q.NBytes then m0 x else m x) := by
  intro ptrs
  induction ptrs with
  | nil =>
    intro m _ _
    show Except.ok m = _
    have : (fun x => if ∃ q ∈ ([] : List Pointer), A q ≤ x ∧ x < A q + q.NBytes
        then m0 x else m x) = m := by
      funext x
      simp
    rw [this]
  | cons p rest ih =>
    intro m hslots htr
    have hp := hslots p (List.mem_cons_self p rest)
    cases hb : baseForPtr ctx p with
    | none =>
      exfalso
      have hres : restoreStateT ctx (totalPrims is32b) m p.Name
          ⟨p, true, readBytesTot m0 (A p) p.NBytes⟩
            = .error (.unknownModule p.OptModule) := by
        unfold restoreStateT
        rw [show baseForPtr ctx (⟨p, true, readBytesTot m0 (A p) p.NBytes⟩ :
          ProgramState).pointer = none from hb]
      have h0 : (handleRestoreKeyT ctx (totalPrims is32b) states m (p :: rest)).2
          = [] := by
        simp only [handleRestoreKeyT, hp, hres, ite_true]
      rw [htr] at h0
      exact absurd h0 (by simp)
    | some ba =>
      cases hl : lookupAddr ba p.Addrs (totalAddrFn is32b m) with
      | mk sa eo =>
        cases eo with
        | some e2 =>
          exfalso
          have hres : restoreStateT ctx (totalPrims is32b) m p.Name
              ⟨p, true, readBytesTot m0 (A p) p.NBytes⟩
                = .error (.lookupFailed p.Name e2) := by
            unfold restoreStateT
            rw [show baseForPtr ctx (⟨p, true, readBytesTot m0 (A p) p.NBytes⟩ :
              ProgramState).pointer = some ba from hb]
            show (match lookupAddr ba p.Addrs (totalAddrFn is32b m) with
              | (_, some e) => Except.error (PErr.lookupFailed p.Name e)
              | (stateAddr, none) =>
                match (totalPrims is32b).writeBytes m stateAddr
                    (readBytesTot m0 (A p) p.NBytes) with
                | .error _ => Except.error (PErr.writeFailed p.Name stateAddr)
                | .ok mem' => Except.ok (mem', stateAddr)) = _
            rw [hl]
          have h0 : (handleRestoreKeyT ctx (totalPrims is32b) states m (p :: rest)).2
              = [] := by
            simp only [handleRestoreKeyT, hp, hres, ite_true]
          rw [htr] at h0
          exact absurd h0 (by simp)
        | none =>
          have hres := restoreStateT_total_eval ctx is32b m p.Name
            ⟨p, true, readBytesTot m0 (A p) p.NBytes⟩ ba sa hb hl
          have htrace_cons :
              (handleRestoreKeyT ctx (totalPrims is32b) states m (p :: rest)).2
                = sa :: (handleRestoreKeyT ctx (totalPrims is32b) states
                    (writeBytesTot m sa (readBytesTot m0 (A p) p.NBytes)) rest).2 := by
            simp only [handleRestoreKeyT, hp, hres, ite_true]
          rw [htr, List.map_cons] at htrace_cons
          have hsa : A p = sa := ((List.cons.injEq _ _ _ _).mp htrace_cons).1


          have htr' : (handleRestoreKeyT ctx (totalPrims is32b) states
              (writeBytesTot m sa (readBytesTot m0 (A p) p.NBytes)) rest).2
                = rest.map A := ((List.cons.injEq _ _ _ _).mp htrace_cons).2.symm
          have hrestore : restoreState ctx (totalPrims is32b) m p.Name
              ⟨p, true, readBytesTot m0 (A p) p.NBytes⟩
                = .ok (writeBytesTot m sa (readBytesTot m0 (A p) p.NBytes)) := by
            rw [restoreStateT_fst, hres]
            rfl
          have hmain : handleRestoreKey ctx (totalPrims is32b) states m (p :: rest)
              = handleRestoreKey ctx (totalPrims is32b) states
                  (writeBytesTot m sa (readBytesTot m0 (A p) p.NBytes)) rest := by
            simp only [handleRestoreKey, hp, hrestore, ite_true]
          have hih := ih (writeBytesTot m sa (readBytesTot m0 (A p) p.NBytes))
            (fun q hq => hslots q (List.mem_cons_of_mem p hq)) htr'
          rw [hmain, hih]
          have hm' : writeBytesTot m sa (readBytesTot m0 (A p) p.NBytes)
              = fun x => if A p ≤ x ∧ x < A p + p.NBytes then m0 x else m x := by
            rw [← hsa]
            exact writeBytesTot_readBytesTot m0 p.NBytes m (A p)
          rw [hm']
          have hfun : (fun x => if ∃ q ∈ rest, A q ≤ x ∧ x < A q + q.NBytes then m0 x
              else if A p ≤ x ∧ x < A p + p.NBytes then m0 x else m x)
              = fun x => if ∃ q ∈ p :: rest, A q ≤ x ∧ x < A q + q.NBytes then m0 x
                  else m x := by
            funext x
            by_cases h1 : ∃ q ∈ rest, A q ≤ x ∧ x < A q + q.NBytes
            · obtain ⟨q, hq, hq2⟩ := h1
              rw [if_pos ⟨q, hq, hq2⟩, if_pos ⟨q, List.mem_cons_of_mem p hq, hq2⟩]
            · rw [if_neg h1]
              by_cases h2 : A p ≤ x ∧ x < A p + p.NBytes
              · rw [if_pos h2, if_pos ⟨p, List.mem_cons_self p rest, h2⟩]
              · rw [if_neg h2, if_neg ?_]
                rintro ⟨q, hq, hq2⟩
                rcases List.mem_cons.mp hq with hq' | hq'
                · exact h2 (hq' ▸ hq2)
                · exact h1 ⟨q, hq', hq2⟩
          rw [hfun]

theorem saveState_total_eval (ctx : Ctx) (is32b : Bool) (m0 : Mem) (name : String)
    (st : ProgramState) (ba sa : Nat)
    (hb : baseForPtr ctx st.pointer = some ba)
    (hl : lookupAddr ba st.pointer.Addrs (totalAddrFn is32b m0) = (sa, none)) :
    saveState ctx (totalPrims is32b) m0 name st
      = ({ st with stateSet := true, savedState := readBytesTot m0 sa st.pointer.NBytes },
          none) := by
  unfold saveState
  rw [hb]
  show (match lookupAddr ba st.pointer.Addrs (totalAddrFn is32b m0) with
    | (_, some e) => (st, some (PErr.lookupFailed name e))
    | (stateAddr, none) =>
      match (totalPrims is32b).readBytes m0 stateAddr st.pointer.NBytes with
      | .error _ => (st, some (PErr.readFailed name stateAddr))
      | .ok savedState =>
        ({ st with savedState := savedState, stateSet := true }, none)) = _
  rw [hl]
  rfl

/-- Running the save key over a pointer list with the total primitives:
every slot becomes populated with the bytes of `m0` at its effective
address; names outside the list are untouched; no error occurs. -/
theorem handleSaveKey_total (ctx : Ctx) (is32b : Bool) (m0 : Mem) :
    ∀ (ptrs : List Pointer) (states : StateMap),
      (∀ p ∈ ptrs, ∃ b buf, states p.Name = some ⟨p, b, buf⟩) →
      (∀ p ∈ ptrs, p.Addrs ≠ []) →
      (∀ p ∈ ptrs, (baseForPtr ctx p).isSome) →
      (ptrs.map Pointer.Name).Nodup →
      ∃ states1,
        handleSaveKey ctx (totalPrims is32b) m0 states ptrs = (states1, none)
        ∧ (∀ p ∈ ptrs, states1 p.Name
            = some ⟨p, true, readBytesTot m0 (effAddr ctx is32b m0 p) p.NBytes⟩)
        ∧ (∀ n, n ∉ ptrs.map Pointer.Name → states1 n = states n) := by
  intro ptrs
  induction ptrs with
  | nil =>
    intro states _ _ _ _
    exact ⟨states, rfl, fun p hp => absurd hp (List.not_mem_nil p), fun n _ => rfl⟩
  | cons p rest ih =>
    intro states hslot haddr hbase hnd
    obtain ⟨b, buf, hp⟩ := hslot p (List.mem_cons_self p rest)
    obtain ⟨ba, hb⟩ := Option.isSome_iff_exists.mp (hbase p (List.mem_cons_self p rest))
    have heff : effAddr ctx is32b m0 p
        = (lookupAddr ba p.Addrs (totalAddrFn is32b m0)).1 := by
      unfold effAddr
      rw [hb]
      rfl
    have hl : lookupAddr ba p.Addrs (totalAddrFn is32b m0)
        = (effAddr ctx is32b m0 p, none) := by
      rw [heff]
      exact lookupAddr_totalRead_ok ba
        (fun a => readWordN m0 a (if is32b then 4 else 8)) p.Addrs
        (haddr p (List.mem_cons_self p rest))
    have hsv := saveState_total_eval ctx is32b m0 p.Name ⟨p, b, buf⟩ ba
      (effAddr ctx is32b m0 p) hb hl
    have hndc := List.nodup_cons.mp hnd
    have hslot' : ∀ q ∈ rest, ∃ b' buf',
        (fun n => if n = p.Name
          then some ⟨p, true, readBytesTot m0 (effAddr ctx is32b m0 p) p.NBytes⟩
          else states n) q.Name = some ⟨q, b', buf'⟩ := by
      intro q hq
      have hne : q.Name ≠ p.Name := by
        intro hEq
        exact hndc.1 (hEq ▸ List.mem_map_of_mem Pointer.Name hq)
      simpa [hne] using hslot q (List.mem_cons_of_mem p hq)
    obtain ⟨states1, hrun, hfacts, hpre⟩ := ih
      (fun n => if n = p.Name
        then some ⟨p, true, readBytesTot m0 (effAddr ctx is32b m0 p) p.NBytes⟩
        else states n) hslot'
      (fun q hq => haddr q (List.mem_cons_of_mem p hq))
      (fun q hq => hbase q (List.mem_cons_of_mem p hq)) hndc.2
    refine ⟨states1, ?_, ?_, ?_⟩
    · simp only [handleSaveKey, hp, hsv]
      exact hrun
    · intro q hq
      rcases List.mem_cons.mp hq with rfl | hq'
      · rw [hpre q.Name hndc.1]
        simp
      · exact hfacts q hq'
    · intro n hn
      rw [List.map_cons] at hn
      have hn1 : n ≠ p.Name := fun h => hn (h ▸ List.mem_cons_self _ _)
      have hn2 : n ∉ rest.map Pointer.Name := fun h => hn (List.mem_cons_of_mem _ h)
      rw [hpre n hn2]
      simp [hn1]

/-- **C2.** End-to-end save/restore correctness for a SaveRestoreGroup with
pointers `ptrs` in a running session: if each pointer has a slot, the
chains are non-empty and their bases resolve, the names are distinct, the
save keypress against memory `m0` succeeds producing table `states1`, and
the restore keypress against the (arbitrarily overwritten) memory `m1`
resolves each chain to the same effective address the save did
(the trace hypothesis on `handleRestoreKeyT`), then the restore succeeds
and the resulting memory again holds, at each pointer's effective address,
exactly the `NBytes` bytes that `m0` held there (the saved values `V_p`).
All remote reads and writes succeed by construction (`totalPrims`). -/
theorem save_restore_roundtrip (ctx : Ctx) (is32b : Bool)
    (states0 states1 : StateMap) (m0 m1 : Mem) (ptrs : List Pointer)
    (hslot : ∀ p ∈ ptrs, ∃ b buf, states0 p.Name = some ⟨p, b, buf⟩)
    (haddr : ∀ p ∈ ptrs, p.Addrs ≠ [])
    (hbase : ∀ p ∈ ptrs, (baseForPtr ctx p).isSome)
    (hnd : (ptrs.map Pointer.Name).Nodup)
    (hsave : handleSaveKey ctx (totalPrims is32b) m0 states0 ptrs = (states1, none))
    (htrace : (handleRestoreKeyT ctx (totalPrims is32b) states1 m1 ptrs).2
        = ptrs.map (effAddr ctx is32b m0)) :
    ∃ m2, handleRestoreKey ctx (totalPrims is32b) states1 m1 ptrs = .ok m2
      ∧ ∀ p ∈ ptrs, readBytesTot m2 (effAddr ctx is32b m0 p) p.NBytes
          = readBytesTot m0 (effAddr ctx is32b m0 p) p.NBytes := by
  obtain ⟨S1, hrun, hfacts, _⟩ :=
    handleSaveKey_total ctx is32b m0 ptrs states0 hslot haddr hbase hnd
  have hS : states1 = S1 := by
    rw [hsave] at hrun
    exact ((Prod.mk.injEq _ _ _ _).mp hrun).1
  subst hS
  have hok := restore_aux ctx is32b states1 m0 (effAddr ctx is32b m0) ptrs m1
    (fun p hp => hfacts p hp) htrace
  refine ⟨_, hok, ?_⟩
  intro p hp
  apply readBytesTot_congr
  intro x h1 h2
  exact if_pos ⟨p, hp, h1, h2⟩

/-- Concrete data exercising the round trip: one pointer, single-offset
chain, 2-byte region at `1024 + 16`. -/
def wPtr : Pointer := ⟨"xPointer_2", [16], 2, ""⟩

def wCtx : Ctx := ⟨1024, []⟩

def wMem0 : Mem := fun a => a % 256

def wMem1 : Mem := fun _ => 0

def wStates0 : StateMap :=
  fun n => if n = "xPointer_2" then some ⟨wPtr, false, []⟩ else none

def wStates1 : StateMap :=
  fun n => if n = "xPointer_2" then some ⟨wPtr, true, [16, 17]⟩ else wStates0 n

theorem save_restore_roundtrip_witness :
    ∃ m2, handleRestoreKey wCtx (totalPrims false) wStates1 wMem1 [wPtr] = .ok m2
      ∧ ∀ p ∈ [wPtr], readBytesTot m2 (effAddr wCtx false wMem0 p) p.NBytes
          = readBytesTot wMem0 (effAddr wCtx false wMem0 p) p.NBytes :=
  save_restore_roundtrip wCtx false wStates0 wStates1 wMem0 wMem1 [wPtr]
    (by
      intro q hq
      rw [List.mem_singleton] at hq
      subst hq
      exact ⟨false, [], rfl⟩)
    (by
      intro q hq
      rw [List.mem_singleton] at hq
      subst hq
      simp [wPtr])
    (by
      intro q hq
      rw [List.mem_singleton] at hq
      subst hq
      rfl)
    (by simp)
    rfl
    rfl

/-! ## Session termination (progctl.go:275-307) and supervisor
notification (progctl.go:83-96) -/

/-- The possible terminal causes of a `runningProgramRoutine`, mirroring
every call site of `exited`:
* `programExitedNormally` — the wait observer saw `process.Wait()` return
  no error and substituted the `programExitedNormallyErr` sentinel
  (progctl.go:204-211);
* `waitFailed` — `process.Wait()` itself returned an error;
* `listenerExitedNoErr` / `listenerFailed` — the keyboard-hook observer's
  substitution (progctl.go:213-220);
* `stopped` — `Stop()` (progctl.go:275-277);
* `handlerFailed` — an error escaping the keydown handler
  (progctl.go:302-307). -/
inductive SessionCause where
  | programExitedNormally
  | waitFailed (code : Nat)
  | listenerExitedNoErr
  | listenerFailed (code : Nat)
  | stopped
  | handlerFailed (e : PErr)
deriving DecidableEq, Repr

/-- The observable fields of a `runningProgramRoutine` that `exited`
touches: the `sync.Once` guard, the recorded terminal error, the process
handle, the listener registration (`hasHook` is whether `o.ln != nil`),
and the `done` channel. -/
structure SessionLife where
  onceDone : Bool
  hasHook : Bool
  handleClosed : Bool
  hookReleased : Bool
  cause : Option SessionCause
  doneClosed : Bool
deriving DecidableEq, Repr

/-- `runningProgramRoutine.exited` (progctl.go:291-300): under the
`sync.Once` guard, close the process handle, release the hook if one was
registered, record the cause, and close `done`; if the guard already ran,
do nothing at all. -/
def exited (s : SessionLife) (e : SessionCause) : SessionLife :=
  if s.onceDone then s
  else
    { s with
      onceDone := true
      handleClosed := true
      hookReleased := if s.hasHook then true else s.hookReleased
      cause := some e
      doneClosed := true }

/-- **C5.** A session terminates at most once: the first `exited` call (from
any of the racing terminators, here an arbitrary cause `e`) records `e` as
the terminal cause, closes the process handle, releases the hook
registration (when one exists), and closes `done`; and every later call,
with any cause `e2`, is an idempotent no-op — in particular the recorded
cause never changes. -/
theorem exited_once (s : SessionLife) (e : SessionCause)
    (h : s.onceDone = false) :
    (exited s e).cause = some e
      ∧ (exited s e).handleClosed = true
      ∧ (s.hasHook = true → (exited s e).hookReleased = true)
      ∧ (exited s e).doneClosed = true
      ∧ ∀ e2, exited (exited s e) e2 = exited s e := by
  have hstep : exited s e
      = { s with
          onceDone := true
          handleClosed := true
          hookReleased := if s.hasHook then true else s.hookReleased
          cause := some e
          doneClosed := true } := by
    unfold exited
    rw [h]
    rfl
  refine ⟨by rw [hstep], by rw [hstep], ?_, by rw [hstep], ?_⟩
  · intro hh
    rw [hstep]
    simp [hh]
  · intro e2
    rw [hstep]
    unfold exited
    rfl

theorem exited_once_witness :
    ((false : Bool) = false)
      ∧ ((exited ⟨false, true, false, false, none, false⟩ .stopped).cause
          = some .stopped
        ∧ (exited ⟨false, true, false, false, none, false⟩ .stopped).handleClosed = true
        ∧ ((true : Bool) = true →
            (exited ⟨false, true, false, false, none, false⟩ .stopped).hookReleased = true)
        ∧ (exited ⟨false, true, false, false, none, false⟩ .stopped).doneClosed = true
        ∧ ∀ e2, exited (exited ⟨false, true, false, false, none, false⟩ .stopped) e2
            = exited ⟨false, true, false, false, none, false⟩ .stopped) :=
  ⟨rfl, exited_once ⟨false, true, false, false, none, false⟩ .stopped rfl⟩

/-- The wait-observer goroutine (progctl.go:204-211): `process.Wait()`
returning no error becomes the `programExitedNormallyErr` sentinel. -/
def waitObserverCause : Option Nat → SessionCause
  | none => .programExitedNormally
  | some c => .waitFailed c

/-- The listener-observer goroutine (progctl.go:213-220): a `nil` result
from the hook's done channel becomes `"listener exited without error"`. -/
def listenerObserverCause : Option Nat → SessionCause
  | none => .listenerExitedNoErr
  | some c => .listenerFailed c

/-- `errors.Is(err, programExitedNormallyErr)` on a recorded cause: only
the sentinel itself matches (no other call site wraps it). -/
def isProgramExitedNormally : SessionCause → Bool
  | .programExitedNormally => true
  | _ => false

/-- The `ProgramStopped` dispatch in `Routine.loopWithError`
(progctl.go:87-93): a `nil` error is passed exactly when the session's
error is the clean-exit sentinel, otherwise the session error itself. -/
def stoppedErrArg (cause : SessionCause) : Option SessionCause :=
  if isProgramExitedNormally cause then none else some cause

/-- **C6.** The notifier's stopped callback receives no error if and only
if the session's terminal cause was the target process exiting cleanly;
and the wait observer produces that cause exactly when `process.Wait()`
returned no error.  Every other cause (hook death, handler error, stop,
wait failure) is passed through as a non-`nil` error. -/
theorem stoppedErrArg_none_iff_clean_exit :
    (∀ cause : SessionCause,
        stoppedErrArg cause = none ↔ cause = .programExitedNormally)
      ∧ (∀ waitErr : Option Nat,
          waitObserverCause waitErr = .programExitedNormally ↔ waitErr = none)
      ∧ (∀ cause : SessionCause, cause ≠ .programExitedNormally →
          stoppedErrArg cause = some cause) := by
  refine ⟨?_, ?_, ?_⟩
  · intro cause
    cases cause <;> simp [stoppedErrArg, isProgramExitedNormally]
  · intro waitErr
    cases waitErr <;> simp [waitObserverCause]
  · intro cause hne
    cases cause
    case programExitedNormally => exact absurd rfl hne
    all_goals simp [stoppedErrArg, isProgramExitedNormally]

theorem stoppedErrArg_none_iff_clean_exit_witness :
    stoppedErrArg .programExitedNormally = none
      ∧ SessionCause.stopped ≠ .programExitedNormally
      ∧ stoppedErrArg .stopped = some .stopped :=
  ⟨(stoppedErrArg_none_iff_clean_exit.1 .programExitedNormally).mpr rfl,
    by decide,
    stoppedErrArg_none_iff_clean_exit.2.2 .stopped (by decide)⟩

/-! ## Module enumeration (kernel32.go:79-197) -/

/-- A result of one `K32EnumProcessModulesEx` system call: the
`lpcbNeeded` byte count the OS reported and the `error` value of
`Proc.Call` (`errno n`, or a non-errno error). -/
inductive EnumCallErr where
  | errno (n : Nat)
  | nonErrno
deriving DecidableEq, Repr

/-- One OS response to `EnumProcessModulesEx`. -/
structure EnumOSRes where
  neededBytes : Nat
  err : Option EnumCallErr
deriving DecidableEq, Repr

/-- The OS behavior during one `IterProcessModules` run: the response to
the size probe (`lphModule = NULL, cb = 0`), and the response to the
enumeration call as a function of the buffer size passed. -/
structure EnumOS where
  probe : EnumOSRes
  enumWith : Nat → EnumOSRes

/-- `isEnumProcessModulesExErrFatal` (kernel32.go:172-197): `nil`,
errno `0` and errno `299` (partial `ReadProcessMemory`) are benign;
every other errno and every non-errno error is fatal. -/
def isEnumProcessModulesExErrFatal : Option EnumCallErr → Bool
  | none => false
  | some (.errno n) => if n = 0 then false else if n = 299 then false else true
  | some .nonErrno => true

/-- `unsafe.Sizeof(syscall.Handle(0))` on a 64-bit build. -/
def handleSize : Nat := 8

/-- The observable outcome of `IterProcessModules` (kernel32.go:79-115)
up to the handle-slice access: an error, a normal iteration over
`actual` handles, or the runtime panic of `moduleHandles[0:actual]` when
`actual` exceeds the buffer length (`cap = len = totalHandles` for
`make([]syscall.Handle, totalHandles)`). -/
inductive IterOutcome where
  | failTotal
  | zeroHandles
  | failEnum
  | ok (iterated : Nat)
  | panicSliceOOB (bufLen actual : Nat)
deriving DecidableEq, Repr

/-- `IterProcessModules` (kernel32.go:79-115): probe the required size
(`TotalEnumProcessModulesEx`, kernel32.go:138-152), allocate
`totalHandles` handles, enumerate (`EnumProcessModulesEx`,
kernel32.go:154-170), then iterate `moduleHandles[0:actualHandlesReturned]`
where `actualHandlesReturned = lpcbNeeded / 8` from the second call. -/
def iterProcessModules (os : EnumOS) : IterOutcome :=
  if isEnumProcessModulesExErrFatal os.probe.err then .failTotal
  else
    let totalHandles := os.probe.neededBytes / handleSize
    if totalHandles = 0 then .zeroHandles
    else
      let res := os.enumWith (totalHandles * handleSize)
      if isEnumProcessModulesExErrFatal res.err then .failEnum
      else
        let actual := res.neededBytes / handleSize
        if actual ≤ totalHandles then .ok actual
        else .panicSliceOOB totalHandles actual

/-- An OS run in which one module is reported by the probe but a second
module has appeared by the time of the enumeration call: the OS fills the
1-handle buffer, reports 16 bytes needed, and returns the benign partial
errno 299. -/
def grownModuleListOS : EnumOS where
  probe := ⟨8, none⟩
  enumWith := fun _ => ⟨16, some (.errno 299)⟩

/-- **C8** (failing part).  When the OS reports more handles than the
allocated buffer holds — `lpcbNeeded = 16` bytes (2 handles) against a
1-handle buffer — `IterProcessModules` slices the buffer out of bounds
(`moduleHandles[0:2]` on a length-1 slice), a runtime panic: the
enumeration is *not* safe against a module list that grows between the
size probe and the enumeration call, and there is no retry.  The benign
errno 299 is (correctly) not treated as fatal, which is precisely what
lets execution reach the out-of-bounds slice. -/
theorem iterProcessModules_oob_on_growth :
    iterProcessModules grownModuleListOS = .panicSliceOOB 1 2
      ∧ isEnumProcessModulesExErrFatal (some (.errno 299)) = false := by
  exact ⟨rfl, rfl⟩

/-! ## Configuration data model (appconfig.go:187-352, 431-435) and
attach-time module lookup (progctl.go:225-259) -/

/-- ASCII lower-casing, modeling `strings.ToLower` on the names that occur
here (character-list form, so that it evaluates by kernel reduction). -/
def lowerS (s : String) : String := ⟨s.data.map Char.toLower⟩

/-- `appconfig.General` (appconfig.go:245-248). -/
structure General where
  ExeName : String
  Disabled : Bool
deriving DecidableEq, Repr

/-- `appconfig.SaveRestore` (appconfig.go:346-352), without the back
pointer to the owning config. -/
structure SaveRestore where
  Pointers : List Pointer
  SaveState : Nat
  RestoreState : Nat
deriving DecidableEq, Repr

/-- `appconfig.Writer` (appconfig.go:431-435): the Go
`map[string]WritePointer` keyed by nickname is modeled as an association
list (first binding wins on lookup; `insertWP` replaces in place), without
the back pointer to the owning config. -/
structure Writer where
  Pointers : List (String × WritePointer)
  Keybind : Nat
deriving DecidableEq, Repr

/-- `appconfig.ProgramConfig` (appconfig.go:187-192).  The derived
`Keybinds` dispatch index (a `map[byte][]interface{}`) is not part of the
model; the keydown handler is modeled per section group
(`handleSaveKey`/`handleRestoreKey`). -/
structure ProgramConfig where
  General : General
  SaveRestores : List SaveRestore
  Writers : List Writer
deriving DecidableEq, Repr

/-- The zero `kernel32.Module`, as stored by
`needed[...] = kernel32.Module{}`. -/
def emptyModule : Module := ⟨"", "", 0, 0, 0⟩

/-- Go-map insertion of the zero module if the key is not yet present
(`needed[k] = kernel32.Module{}` inserts or overwrites with the same
zero value, so insert-if-absent is equivalent). -/
def insertIfAbsent (l : List (String × Module)) (k : String) :
    List (String × Module) :=
  match lookupMod l k with
  | some _ => l
  | none => l ++ [(k, emptyModule)]

/-- Replace the value bound to `k` (a present key), modeling
`needed[moduleLc] = module`. -/
def setMod (l : List (String × Module)) (k : String) (m : Module) :
    List (String × Module) :=
  l.map (fun kv => if kv.1 = k then (k, m) else kv)

/-- The construction of `needed` in `getRequiredModules`
(progctl.go:226-234): the executable name, then the non-empty `OptModule`
of every pointer of every SaveRestore section.  (Writer pointers are not
visited by the Go loop.) -/
def neededInit (program : ProgramConfig) : List (String × Module) :=
  program.SaveRestores.foldl
    (fun acc sr =>
      sr.Pointers.foldl
        (fun acc2 p =>
          if p.OptModule = "" then acc2 else insertIfAbsent acc2 p.OptModule)
        acc)
    [(program.General.ExeName, emptyModule)]

/-- The error of `getRequiredModules`:
`fmt.Errorf("failed to find modules: %q", missing)`.  The Go `missing`
slice is collected by ranging over the `needed` map (unspecified order);
the model collects it in the association list's insertion order. -/
inductive GRMErr where
  | missingModules (names : List String)
deriving DecidableEq, Repr

/-- The scan loop of `getRequiredModules` (progctl.go:236-258): walk the
module list; on a module whose lower-cased file name is a required key,
store it and decrement `numNeeded`, returning early with the executable's
base once `numNeeded` hits zero; if the list is exhausted, fail with the
names whose entry still has a zero `BaseAddr`. -/
def scanModules (exe : String) :
    List Module → List (String × Module) → Nat →
      Except GRMErr (Nat × List (String × Module))
  | [], needed, _ =>
    .error (.missingModules
      ((needed.filter (fun kv => kv.2.BaseAddr = 0)).map Prod.fst))
  | m :: rest, needed, numNeeded =>
    let lc := lowerS m.Filename
    match lookupMod needed lc with
    | some _ =>
      let needed' := setMod needed lc m
      if numNeeded = 1 then
        .ok (((lookupMod needed' exe).getD emptyModule).BaseAddr, needed')
      else scanModules exe rest needed' (numNeeded - 1)
    | none => scanModules exe rest needed numNeeded

/-- `getRequiredModules` (progctl.go:225-259). -/
def getRequiredModules (program : ProgramConfig) (modules : List Module) :
    Except GRMErr (Nat × List (String × Module)) :=
  let needed := neededInit program
  scanModules program.General.ExeName modules needed needed.length

/-- The module-resolution step of `newRunningProgramRoutine`
(progctl.go:163-170): on a `getRequiredModules` failure the routine calls
`runningProgram.Stop()` — which drives `exited` with the `"stopped"`
error — and returns no session; on success it records the primary base
and the required-module map and continues with the routine's life
unchanged. -/
def attachRequiredModules (s : SessionLife) (program : ProgramConfig)
    (modules : List Module) :
    SessionLife × Option (Nat × List (String × Module)) :=
  match getRequiredModules program modules with
  | .error _ => (exited s .stopped, none)
  | .ok r => (s, some r)

theorem lookupMod_isSome_iff_mem (l : List (String × Module)) (k : String) :
    (lookupMod l k).isSome ↔ k ∈ l.map Prod.fst := by
  induction l with
  | nil => simp [lookupMod]
  | cons kv rest ih =>
    by_cases hk : kv.1 = k
    · simp [lookupMod, hk]
    · simp only [lookupMod, if_neg hk, List.map_cons, List.mem_cons, ih]
      constructor
      · intro h; exact Or.inr h
      · rintro (h | h)
        · exact absurd h.symm hk
        · exact h

theorem lookupMod_mem (l : List (String × Module)) (k : String) (v : Module)
    (h : lookupMod l k = some v) : (k, v) ∈ l := by
  induction l with
  | nil => exact absurd h (by simp [lookupMod])
  | cons kv rest ih =>
    by_cases hk : kv.1 = k
    · rw [lookupMod, if_pos hk] at h
      obtain ⟨k1, v1⟩ := kv
      rw [Option.some.injEq] at h
      refine List.mem_cons.mpr (Or.inl ?_)
      simp only at hk h
      rw [hk, h]
    · rw [lookupMod, if_neg hk] at h
      exact List.mem_cons_of_mem kv (ih h)

theorem lookupMod_setMod_isSome (k : String) (m : Module) :
    ∀ (l : List (String × Module)) (k' : String),
      (lookupMod (setMod l k m) k').isSome = (lookupMod l k').isSome := by
  intro l
  induction l with
  | nil => intro k'; rfl
  | cons kv rest ih =>
    intro k'
    by_cases hk : kv.1 = k
    · simp only [setMod, List.map_cons, if_pos hk, lookupMod]
      by_cases hk' : k = k'
      · rw [if_pos hk', if_pos (hk.trans hk')]
        rfl
      · rw [if_neg hk', if_neg (fun h => hk' (hk.symm.trans h))]
        exact ih k'
    · simp only [setMod, List.map_cons, if_neg hk, lookupMod]
      by_cases hk' : kv.1 = k'
      · rw [if_pos hk', if_pos hk']
      · rw [if_neg hk', if_neg hk']
        exact ih k'

theorem lookupMod_setMod_ne (k k' : String) (m : Module) (hne : k' ≠ k) :
    ∀ (l : List (String × Module)),
      lookupMod (setMod l k m) k' = lookupMod l k' := by
  intro l
  induction l with
  | nil => rfl
  | cons kv rest ih =>
    by_cases hk : kv.1 = k
    · simp only [setMod, List.map_cons, if_pos hk, lookupMod]
      rw [if_neg (fun h => hne h.symm), if_neg (fun h => hne (hk ▸ h.symm))]
      exact ih
    · simp only [setMod, List.map_cons, if_neg hk, lookupMod]
      by_cases hk' : kv.1 = k'
      · rw [if_pos hk', if_pos hk']
      · rw [if_neg hk', if_neg hk']
        exact ih

theorem keys_setMod (k : String) (m : Module) :
    ∀ (l : List (String × Module)),
      (setMod l k m).map Prod.fst = l.map Prod.fst := by
  intro l
  induction l with
  | nil => rfl
  | cons kv rest ih =>
    show List.map Prod.fst ((if kv.1 = k then (k, m) else kv) :: setMod rest k m)
      = List.map Prod.fst (kv :: rest)
    by_cases hk : kv.1 = k
    · rw [if_pos hk]
      simp only [List.map_cons]
      rw [ih, hk]
    · rw [if_neg hk]
      simp only [List.map_cons]
      rw [ih]

theorem mem_missing_of_lookup (needed : List (String × Module)) (r : String)
    (em : Module) (hl : lookupMod needed r = some em) (h0 : em.BaseAddr = 0) :
    r ∈ (needed.filter (fun kv => kv.2.BaseAddr = 0)).map Prod.fst := by
  have hmem := lookupMod_mem needed r em hl
  exact List.mem_map.mpr ⟨(r, em), List.mem_filter.mpr ⟨hmem, by simpa using h0⟩, rfl⟩

/-- If a required name `r` is matched by no module in the list, every
module file name is distinct, and the bound
`numNeeded ≥ |matching modules| + 1` holds, the scan cannot reach its
early success return and fails naming `r` among the missing modules. -/
theorem scanModules_missing (exe r : String) :
    ∀ (mods : List Module) (needed : List (String × Module)) (numNeeded : Nat),
      (∀ m ∈ mods, lowerS m.Filename ≠ r) →
      (∃ em, lookupMod needed r = some em ∧ em.BaseAddr = 0) →
      numNeeded ≥ (mods.filter
          (fun m => (lookupMod needed (lowerS m.Filename)).isSome)).length + 1 →
      ∃ missing, scanModules exe mods needed numNeeded
          = .error (.missingModules missing) ∧ r ∈ missing := by
  intro mods
  induction mods with
  | nil =>
    intro needed numNeeded _ hr _
    obtain ⟨em, hl, h0⟩ := hr
    exact ⟨_, rfl, mem_missing_of_lookup needed r em hl h0⟩
  | cons m rest ih =>
    intro needed numNeeded hne hr hbound
    obtain ⟨em, hl, h0⟩ := hr
    cases hlk : lookupMod needed (lowerS m.Filename) with
    | none =>
      have hb' : numNeeded ≥ (rest.filter
          (fun m' => (lookupMod needed (lowerS m'.Filename)).isSome)).length + 1 := by
        have : (List.filter
            (fun m' => (lookupMod needed (lowerS m'.Filename)).isSome) (m :: rest))
            = rest.filter (fun m' => (lookupMod needed (lowerS m'.Filename)).isSome) := by
          rw [List.filter_cons_of_neg]
          simp [hlk]
        rw [this] at hbound
        exact hbound
      obtain ⟨missing, hres, hmem⟩ := ih needed numNeeded
        (fun m' hm' => hne m' (List.mem_cons_of_mem m hm')) ⟨em, hl, h0⟩ hb'
      refine ⟨missing, ?_, hmem⟩
      show scanModules exe (m :: rest) needed numNeeded = _
      simp only [scanModules, hlk]
      exact hres
    | some mv =>
      have hcnt : (List.filter
          (fun m' => (lookupMod needed (lowerS m'.Filename)).isSome) (m :: rest))
          = m :: rest.filter
              (fun m' => (lookupMod needed (lowerS m'.Filename)).isSome) := by
        rw [List.filter_cons_of_pos]
        simp [hlk]
      rw [hcnt, List.length_cons] at hbound
      have hge2 : numNeeded ≥ 2 := by omega
      have hne1 : ¬(numNeeded = 1) := by omega
      have hkeyeq : ∀ m' : Module,
          (lookupMod (setMod needed (lowerS m.Filename) m) (lowerS m'.Filename)).isSome
            = (lookupMod needed (lowerS m'.Filename)).isSome :=
        fun m' => lookupMod_setMod_isSome (lowerS m.Filename) m needed (lowerS m'.Filename)
      have hb' : numNeeded - 1 ≥ (rest.filter
          (fun m' => (lookupMod (setMod needed (lowerS m.Filename) m)
            (lowerS m'.Filename)).isSome)).length + 1 := by
        have hsame : rest.filter
            (fun m' => (lookupMod (setMod needed (lowerS m.Filename) m)
              (lowerS m'.Filename)).isSome)
            = rest.filter
                (fun m' => (lookupMod needed (lowerS m'.Filename)).isSome) := by
          apply List.filter_congr
          intro m' _
          rw [hkeyeq m']
        rw [hsame]
        omega
      have hr' : ∃ em', lookupMod (setMod needed (lowerS m.Filename) m) r = some em'
          ∧ em'.BaseAddr = 0 := by
        rw [lookupMod_setMod_ne (lowerS m.Filename) r m
          (fun h => hne m (List.mem_cons_self m rest) h.symm) needed]
        exact ⟨em, hl, h0⟩
      obtain ⟨missing, hres, hmem⟩ := ih (setMod needed (lowerS m.Filename) m)
        (numNeeded - 1)
        (fun m' hm' => hne m' (List.mem_cons_of_mem m hm')) hr' hb'
      refine ⟨missing, ?_, hmem⟩
      show scanModules exe (m :: rest) needed numNeeded = _
      simp only [scanModules, hlk, hne1, if_false]
      exact hres

theorem lookupMod_append (l1 l2 : List (String × Module)) (k : String) :
    lookupMod (l1 ++ l2) k
      = match lookupMod l1 k with
        | some v => some v
        | none => lookupMod l2 k := by
  induction l1 with
  | nil => rfl
  | cons kv rest ih =>
    by_cases hk : kv.1 = k
    · simp [lookupMod, hk]
    · simp [lookupMod, hk, ih]

theorem lookupMod_insertIfAbsent_isSome (l : List (String × Module)) (k k' : String) :
    (lookupMod (insertIfAbsent l k) k').isSome
      ↔ ((lookupMod l k').isSome ∨ k' = k) := by
  unfold insertIfAbsent
  cases hl : lookupMod l k with
  | some v =>
    constructor
    · exact Or.inl
    · rintro (h | rfl)
      · exact h
      · rw [hl]
        rfl
  | none =>
    rw [lookupMod_append]
    cases hl' : lookupMod l k' with
    | some v => simp
    | none =>
      simp only [Option.isSome_none, Bool.false_eq_true, false_or]
      constructor
      · intro h
        by_cases hk' : k = k'
        · exact hk'.symm
        · rw [show lookupMod [(k, emptyModule)] k' = none by
            simp [lookupMod, hk']] at h
          exact absurd h (by simp)
      · rintro rfl
        simp [lookupMod]

/-- The step function of the pointer fold in `getRequiredModules`
(progctl.go:228-234). -/
def needStep (acc : List (String × Module)) (p : Pointer) :
    List (String × Module) :=
  if p.OptModule = "" then acc else insertIfAbsent acc p.OptModule

theorem lookupMod_ptrFold_isSome (k : String) :
    ∀ (ps : List Pointer) (acc : List (String × Module)),
      (lookupMod (ps.foldl needStep acc) k).isSome
        ↔ ((lookupMod acc k).isSome
            ∨ ∃ p ∈ ps, p.OptModule = k ∧ p.OptModule ≠ "") := by
  intro ps
  induction ps with
  | nil =>
    intro acc
    simp
  | cons p ps ih =>
    intro acc
    rw [List.foldl_cons]
    by_cases hm : p.OptModule = ""
    · rw [show needStep acc p = acc by simp [needStep, hm], ih]
      constructor
      · rintro (h | ⟨q, hq, hq2⟩)
        · exact Or.inl h
        · exact Or.inr ⟨q, List.mem_cons_of_mem p hq, hq2⟩
      · rintro (h | ⟨q, hq, hq2⟩)
        · exact Or.inl h
        · rcases List.mem_cons.mp hq with rfl | hq'
          · exact absurd hm hq2.2
          · exact Or.inr ⟨q, hq', hq2⟩
    · rw [show needStep acc p = insertIfAbsent acc p.OptModule by
        simp [needStep, hm], ih, lookupMod_insertIfAbsent_isSome]
      constructor
      · rintro ((h | h) | ⟨q, hq, hq2⟩)
        · exact Or.inl h
        · exact Or.inr ⟨p, List.mem_cons_self p ps, h.symm, hm⟩
        · exact Or.inr ⟨q, List.mem_cons_of_mem p hq, hq2⟩
      · rintro (h | ⟨q, hq, hq2⟩)
        · exact Or.inl (Or.inl h)
        · rcases List.mem_cons.mp hq with rfl | hq'
          · exact Or.inl (Or.inr hq2.1.symm)
          · exact Or.inr ⟨q, hq', hq2⟩

theorem lookupMod_neededInit_isSome (prog : ProgramConfig) (k : String) :
    (lookupMod (neededInit prog) k).isSome
      ↔ (k = prog.General.ExeName
          ∨ ∃ sr ∈ prog.SaveRestores, ∃ p ∈ sr.Pointers,
              p.OptModule = k ∧ p.OptModule ≠ "") := by
  have main : ∀ (srs : List SaveRestore) (acc : List (String × Module)),
      (lookupMod (srs.foldl (fun a sr => sr.Pointers.foldl needStep a) acc) k).isSome
        ↔ ((lookupMod acc k).isSome
            ∨ ∃ sr ∈ srs, ∃ p ∈ sr.Pointers, p.OptModule = k ∧ p.OptModule ≠ "") := by
    intro srs
    induction srs with
    | nil =>
      intro acc
      simp
    | cons sr srs ih =>
      intro acc
      rw [List.foldl_cons, ih, lookupMod_ptrFold_isSome]
      constructor
      · rintro ((h | h) | ⟨g, hg, hp⟩)
        · exact Or.inl h
        · exact Or.inr ⟨sr, List.mem_cons_self sr srs, h⟩
        · exact Or.inr ⟨g, List.mem_cons_of_mem sr hg, hp⟩
      · rintro (h | ⟨g, hg, hp⟩)
        · exact Or.inl (Or.inl h)
        · rcases List.mem_cons.mp hg with rfl | hg'
          · exact Or.inl (Or.inr hp)
          · exact Or.inr ⟨g, hg', hp⟩
  have hbase : (lookupMod [(prog.General.ExeName, emptyModule)] k).isSome
      ↔ k = prog.General.ExeName := by
    constructor
    · intro h
      by_cases he : prog.General.ExeName = k
      · exact he.symm
      · rw [show lookupMod [(prog.General.ExeName, emptyModule)] k = none by
          simp [lookupMod, he]] at h
        exact absurd h (by simp)
    · rintro rfl
      simp [lookupMod]
  show (lookupMod (List.foldl (fun a sr => sr.Pointers.foldl needStep a)
      [(prog.General.ExeName, emptyModule)] prog.SaveRestores) k).isSome ↔ _
  rw [main, hbase]

theorem mem_insertIfAbsent (l : List (String × Module)) (k : String)
    (kv : String × Module) (h : kv ∈ insertIfAbsent l k) :
    kv ∈ l ∨ kv = (k, emptyModule) := by
  unfold insertIfAbsent at h
  cases hl : lookupMod l k with
  | some v =>
    rw [hl] at h
    exact Or.inl h
  | none =>
    rw [hl] at h
    rcases List.mem_append.mp h with h' | h'
    · exact Or.inl h'
    · exact Or.inr (by simpa using h')

theorem neededInit_val (prog : ProgramConfig) :
    ∀ kv ∈ neededInit prog, kv.2 = emptyModule := by
  have hinner : ∀ (ps : List Pointer) (acc : List (String × Module)),
      (∀ kv ∈ acc, kv.2 = emptyModule) →
      ∀ kv ∈ ps.foldl needStep acc, kv.2 = emptyModule := by
    intro ps
    induction ps with
    | nil => intro acc h; exact h
    | cons p ps ih =>
      intro acc h
      rw [List.foldl_cons]
      apply ih
      intro kv hkv
      unfold needStep at hkv
      by_cases hm : p.OptModule = ""
      · rw [if_pos hm] at hkv
        exact h kv hkv
      · rw [if_neg hm] at hkv
        rcases mem_insertIfAbsent acc p.OptModule kv hkv with h' | h'
        · exact h kv h'
        · rw [h']
  have houter : ∀ (srs : List SaveRestore) (acc : List (String × Module)),
      (∀ kv ∈ acc, kv.2 = emptyModule) →
      ∀ kv ∈ srs.foldl (fun a sr => sr.Pointers.foldl needStep a) acc,
        kv.2 = emptyModule := by
    intro srs
    induction srs with
    | nil => intro acc h; exact h
    | cons sr srs ih =>
      intro acc h
      rw [List.foldl_cons]
      exact ih _ (hinner sr.Pointers acc h)
  exact houter prog.SaveRestores [(prog.General.ExeName, emptyModule)]
    (by intro kv hkv; simpa using congrArg Prod.snd (List.mem_singleton.mp hkv))

theorem filter_bound (needed : List (String × Module)) (mods : List Module)
    (r : String)
    (hnd : (mods.map (fun m => lowerS m.Filename)).Nodup)
    (hne : ∀ m ∈ mods, lowerS m.Filename ≠ r)
    (hr : r ∈ needed.map Prod.fst) :
    (mods.filter (fun m => (lookupMod needed (lowerS m.Filename)).isSome)).length + 1
      ≤ needed.length := by
  have hLnd : ((mods.filter
      (fun m => (lookupMod needed (lowerS m.Filename)).isSome)).map
        (fun m => lowerS m.Filename)).Nodup :=
    hnd.sublist (List.Sublist.map _ (List.filter_sublist mods))
  have hLsub : (mods.filter
      (fun m => (lookupMod needed (lowerS m.Filename)).isSome)).map
        (fun m => lowerS m.Filename) ⊆ (needed.map Prod.fst).erase r := by
    intro x hx
    obtain ⟨m, hm, rfl⟩ := List.mem_map.mp hx
    have hmem := List.mem_filter.mp hm
    have hxk : lowerS m.Filename ∈ needed.map Prod.fst :=
      (lookupMod_isSome_iff_mem needed _).mp (by simpa using hmem.2)
    exact (List.mem_erase_of_ne (hne m hmem.1)).mpr hxk
  have hlen := (List.subperm_of_subset hLnd hLsub).length_le
  rw [List.length_map, List.length_erase_of_mem hr] at hlen
  have hpos : 0 < (needed.map Prod.fst).length := List.length_pos.mpr
    (fun hnil => by rw [hnil] at hr; exact absurd hr (List.not_mem_nil r))
  rw [List.length_map] at hlen hpos
  omega

/-- **C4 (amended).** First conjunct: the set of module names that attach
requires is exactly the executable's name together with the non-empty
`OptModule` of the pointers of SaveRestore sections — module names
referenced only by Writer sections are *not* required.  Second conjunct:
when any required name `r` matches no module of the target's list, whose
lower-cased file names are pairwise distinct, `getRequiredModules` fails
with an error naming `r` among the missing modules.  Third conjunct: in
that situation the attach step creates no session and releases the
resources acquired so far — `newRunningProgramRoutine` calls `Stop()`,
whose `exited` closes the process handle (no hook is registered yet at
this point, progctl.go:163-196).  Both provisos of this amendment are
forced by `getRequiredModules_counterexamples`. -/
theorem getRequiredModules_saverestore_only (prog : ProgramConfig)
    (mods : List Module) (r : String) :
    ((lookupMod (neededInit prog) r).isSome
        ↔ (r = prog.General.ExeName
            ∨ ∃ sr ∈ prog.SaveRestores, ∃ p ∈ sr.Pointers,
                p.OptModule = r ∧ p.OptModule ≠ ""))
      ∧ ((mods.map (fun m => lowerS m.Filename)).Nodup →
          (lookupMod (neededInit prog) r).isSome →
          (∀ m ∈ mods, lowerS m.Filename ≠ r) →
          ∃ missing, getRequiredModules prog mods
              = .error (.missingModules missing) ∧ r ∈ missing)
      ∧ ((mods.map (fun m => lowerS m.Filename)).Nodup →
          (lookupMod (neededInit prog) r).isSome →
          (∀ m ∈ mods, lowerS m.Filename ≠ r) →
          ∀ s : SessionLife,
            attachRequiredModules s prog mods = (exited s .stopped, none)
              ∧ (s.onceDone = false →
                  (exited s .stopped).handleClosed = true
                    ∧ (exited s .stopped).doneClosed = true)) := by
  have main2 : (mods.map (fun m => lowerS m.Filename)).Nodup →
      (lookupMod (neededInit prog) r).isSome →
      (∀ m ∈ mods, lowerS m.Filename ≠ r) →
      ∃ missing, getRequiredModules prog mods
          = .error (.missingModules missing) ∧ r ∈ missing := by
    intro hnd hreq hne
    obtain ⟨em, hem⟩ := Option.isSome_iff_exists.mp hreq
    have hem0 : em.BaseAddr = 0 := by
      have hempty : em = emptyModule :=
        neededInit_val prog (r, em) (lookupMod_mem _ _ _ hem)
      rw [hempty]
      rfl
    have hbound := filter_bound (neededInit prog) mods r hnd hne
      ((lookupMod_isSome_iff_mem _ _).mp hreq)
    exact scanModules_missing prog.General.ExeName r mods (neededInit prog)
      (neededInit prog).length hne ⟨em, hem, hem0⟩ hbound
  refine ⟨lookupMod_neededInit_isSome prog r, main2, ?_⟩
  intro hnd hreq hne s
  obtain ⟨missing, herr, _⟩ := main2 hnd hreq hne
  constructor
  · unfold attachRequiredModules
    rw [herr]
  · intro honce
    constructor
    · unfold exited
      rw [honce]
      rfl
    · unfold exited
      rw [honce]
      rfl

/-- A config whose only module-name reference outside the executable sits
in a SaveRestore section. -/
def srProg : ProgramConfig :=
  ⟨⟨"game.exe", false⟩,
    [⟨[⟨"hpPointer_4", [16], 4, "extra.dll"⟩], 52, 53⟩], []⟩

/-- A module list containing only the executable. -/
def gameOnlyMods : List Module :=
  [⟨"c:/game.exe", "Game.exe", 4194304, 4259840, 65536⟩]

/-- A fresh routine life: nothing terminated, no hook registered yet. -/
def freshLife : SessionLife := ⟨false, false, false, false, none, false⟩

theorem getRequiredModules_saverestore_only_witness :
    (["game.exe"] : List String).Nodup
      ∧ (lookupMod (neededInit srProg) "extra.dll").isSome = true
      ∧ (∃ missing, getRequiredModules srProg gameOnlyMods
          = .error (.missingModules missing) ∧ "extra.dll" ∈ missing)
      ∧ (attachRequiredModules freshLife srProg gameOnlyMods
            = (exited freshLife .stopped, none)
          ∧ (freshLife.onceDone = false →
              (exited freshLife .stopped).handleClosed = true
                ∧ (exited freshLife .stopped).doneClosed = true)) := by
  have hnd : ((gameOnlyMods.map (fun m => lowerS m.Filename))).Nodup := by decide
  have hne : ∀ m ∈ gameOnlyMods, lowerS m.Filename ≠ "extra.dll" := by
    intro m hm
    rw [List.mem_singleton.mp hm]
    decide
  refine ⟨by decide, by decide, ?_, ?_⟩
  · exact (getRequiredModules_saverestore_only srProg gameOnlyMods "extra.dll").2.1
      hnd (by decide) hne
  · exact (getRequiredModules_saverestore_only srProg gameOnlyMods "extra.dll").2.2
      hnd (by decide) hne freshLife

/-- A config whose only module-name reference outside the executable sits
in a Writer section; the module is absent from the target. -/
def writerProg : ProgramConfig :=
  ⟨⟨"game.exe", false⟩, [],
    [⟨[("pos", ⟨⟨"posPointer", [32, 8], 0, "extra.dll"⟩, [202, 254]⟩)], 112⟩]⟩

/-- The executable mapped twice — the same file name loaded from two
paths — together with no `extra.dll`. -/
def dupMods : List Module :=
  [⟨"c:/game.exe", "Game.exe", 4194304, 4259840, 65536⟩,
    ⟨"d:/game.exe", "GAME.EXE", 6291456, 6356992, 65536⟩]

/-- **C4 (counterexamples).** Two concrete refutations of the claim that
attach locates every module referenced by any PointerSpec (in every
SaveRestoreGroup and every WriteAction) and fails when one is absent.
(a) `writerProg` references `extra.dll` only from a WriteAction's
PointerSpec and no module of that name is loaded, yet `getRequiredModules`
*succeeds*: the Go loop at progctl.go:228-234 only visits
`program.SaveRestores`.
(b) `srProg` references `extra.dll` from a SaveRestoreGroup and the module
is absent, but the module list carries the executable's file name twice
(`dupMods`): each matching list entry decrements `numNeeded`
(progctl.go:236-249), so the scan reaches its early success return with
`extra.dll` still missing (its entry still the zero module) —
`getRequiredModules` *succeeds* again, and the returned base is the
second duplicate's. -/
theorem getRequiredModules_counterexamples :
    ((∃ w ∈ writerProg.Writers, ∃ kv ∈ w.Pointers,
        kv.2.Pointer.OptModule = "extra.dll")
      ∧ (∀ m ∈ gameOnlyMods, lowerS m.Filename ≠ "extra.dll")
      ∧ getRequiredModules writerProg gameOnlyMods
          = .ok (4194304,
              [("game.exe", ⟨"c:/game.exe", "Game.exe", 4194304, 4259840, 65536⟩)]))
    ∧ ((∃ sr ∈ srProg.SaveRestores, ∃ p ∈ sr.Pointers,
          p.OptModule = "extra.dll")
      ∧ (∀ m ∈ dupMods, lowerS m.Filename ≠ "extra.dll")
      ∧ getRequiredModules srProg dupMods
          = .ok (6291456,
              [("game.exe", ⟨"d:/game.exe", "GAME.EXE", 6291456, 6356992, 65536⟩),
                ("extra.dll", emptyModule)])) := by
  refine ⟨⟨by decide, by decide, rfl⟩, ⟨by decide, by decide, rfl⟩⟩

/-! ## `[Writer]` section parsing and validation
(appconfig.go:431-563, driven by ini.ParseSchema)

The INI parser lower-cases parameter names (`LowercaseNames`), feeds each
parameter of a `[Writer]` section to `Writer.OnParam`'s handler (an unknown
name is an error, `AllowUnknownParams` is false), checks the required
`keybind` parameter at section end, and then calls `Writer.Validate`.
The parser's per-name `Limit: 1` rule is not modeled; omitting it only
admits more parameter lists, so the invariants proved below also cover
every list the Go parser accepts. -/

/-- `ini.Param` (name as written; the parser hands the handler the
lower-cased name separately). -/
structure Param where
  name : String
  value : String
deriving DecidableEq, Repr

/-- The zero `WritePointer`, as read from a missing map key. -/
def emptyWritePointer : WritePointer := ⟨⟨"", [], 0, ""⟩, []⟩

def lookupWP : List (String × WritePointer) → String → Option WritePointer
  | [], _ => none
  | kv :: rest, k => if kv.1 = k then some kv.2 else lookupWP rest k

/-- Go-map assignment `o.Pointers[name] = wp`: replace if present, else
append. -/
def insertWP (l : List (String × WritePointer)) (k : String) (wp : WritePointer) :
    List (String × WritePointer) :=
  match lookupWP l k with
  | some _ => l.map (fun kv => if kv.1 = k then (k, wp) else kv)
  | none => l ++ [(k, wp)]

/-- `keybindFromStr` (appconfig.go:338-344): single-character value →
its byte. -/
def keybindFromStr (s : String) : Except String Nat :=
  match s.data with
  | [c] => .ok c.toNat
  | _ => .error "keybind must be 1 character"

/-- `unicode.IsSpace` restricted to the ASCII space characters. -/
def isSpaceGo (c : Char) : Bool :=
  c = ' ' || c = '\t' || c = '\n' || c = '\r'
    || c = Char.ofNat 11 || c = Char.ofNat 12

def fieldsAux : List Char → List Char → List (List Char)
  | [], acc => if acc.isEmpty then [] else [acc.reverse]
  | c :: rest, acc =>
    if isSpaceGo c then
      if acc.isEmpty then fieldsAux rest [] else acc.reverse :: fieldsAux rest []
    else fieldsAux rest (c :: acc)

/-- `strings.Fields`: split around runs of whitespace. -/
def fieldsGo (s : String) : List String :=
  (fieldsAux s.data []).map (fun cs => ⟨cs⟩)

def hexDigitVal (c : Char) : Option Nat :=
  if '0' ≤ c ∧ c ≤ '9' then some (c.toNat - '0'.toNat)
  else if 'a' ≤ c ∧ c ≤ 'f' then some (c.toNat - 'a'.toNat + 10)
  else if 'A' ≤ c ∧ c ≤ 'F' then some (c.toNat - 'A'.toNat + 10)
  else none

def parseUintHexAux : List Char → Nat → Option Nat
  | [], acc => some acc
  | c :: rest, acc =>
    match hexDigitVal c with
    | some d => parseUintHexAux rest (acc * 16 + d)
    | none => none

/-- `strconv.ParseUint(str, 16, 64)`: base-16 digits only, non-empty,
value below `2^64`. -/
def parseUintHex64 (s : String) : Option Nat :=
  match s.data with
  | [] => none
  | cs =>
    match parseUintHexAux cs 0 with
    | none => none
    | some v => if v < 2 ^ 64 then some v else none

/-- `strings.TrimPrefix`. -/
def trimPre (s pre : String) : String :=
  if pre.data.isPrefixOf s.data then ⟨s.data.drop pre.data.length⟩ else s

/-- `strings.TrimSuffix`. -/
def trimSuf (s suf : String) : String :=
  if suf.data.isSuffixOf s.data
  then ⟨s.data.take (s.data.length - suf.data.length)⟩ else s

/-- `strings.HasSuffix`. -/
def endsWithGo (s suf : String) : Bool := suf.data.isSuffixOf s.data

/-- `strings.Contains(s, ".")`. -/
def containsDot (s : String) : Bool := s.data.contains '.'

/-- The per-offset conversion loop of `pointerFromParam`
(appconfig.go:319-329): `strings.TrimPrefix(str, "0x")` then
`strconv.ParseUint(str, 16, 64)`, aborting on the first failure. -/
def parseOffsets : List String → Option (List Nat)
  | [] => some []
  | s :: rest =>
    match parseUintHex64 (trimPre s "0x") with
    | none => none
    | some v => (parseOffsets rest).map (fun vs => v :: vs)

/-- `pointerFromParam` (appconfig.go:305-336): split the value into
fields; a first field containing `.` names the module; the remaining
fields are hex offsets.  `Name` is the parameter's original name,
`OptModule` is lower-cased, `NBytes` stays zero. -/
def pointerFromParam (param : Param) : Except String Pointer :=
  match fieldsGo param.value with
  | [] => .error "pointer is empty"
  | s0 :: restFields =>
    let optModuleName := if containsDot s0 then s0 else ""
    let offsetStrs := if containsDot s0 then restFields else s0 :: restFields
    match parseOffsets offsetStrs with
    | none => .error "failed to convert string to uint"
    | some values => .ok ⟨param.name, values, 0, lowerS optModuleName⟩

/-- `encoding/hex.DecodeString`: pairs of hex digits. -/
def hexDecodePairs : List Char → Option (List Nat)
  | [] => some []
  | [_] => none
  | a :: b :: rest =>
    match hexDigitVal a, hexDigitVal b with
    | some x, some y => (hexDecodePairs rest).map (fun ds => (16 * x + y) :: ds)
    | _, _ => none

/-- `Writer.addWriterPointer` (appconfig.go:498-519); the Go locals `name`
(the nickname, the suffix-trimmed lower-cased parameter name) and `wp`
(the map entry, zero-valued when absent) are written out in place. -/
def addWriterPointer (o : Writer) (param : Param) (nameLC : String) :
    Except String Writer :=
  match pointerFromParam param with
  | .error e => .error e
  | .ok pointer =>
    if ((lookupWP o.Pointers (trimSuf nameLC "pointer")).getD
        emptyWritePointer).Pointer.Name ≠ "" then
      .error "write pointer already has a pointer defined"
    else
      .ok { o with
        Pointers := insertWP o.Pointers (trimSuf nameLC "pointer")
          { (lookupWP o.Pointers (trimSuf nameLC "pointer")).getD
              emptyWritePointer with Pointer := pointer } }

/-- The value normalization of `Writer.addData` (appconfig.go:523-527):
strip a `0x` prefix and left-pad odd-length hex with `0`. -/
def normHexValue (v : String) : String :=
  if (trimPre v "0x").data.length % 2 = 1
  then (⟨'0' :: (trimPre v "0x").data⟩ : String)
  else trimPre v "0x"

/-- `Writer.addData` (appconfig.go:522-546); locals written out in
place as in `addWriterPointer`. -/
def addData (o : Writer) (param : Param) (nameLC : String) :
    Except String Writer :=
  match hexDecodePairs (normHexValue param.value).data with
  | none => .error "failed to decode data"
  | some data =>
    if ((lookupWP o.Pointers (trimSuf nameLC "data")).getD
        emptyWritePointer).Data.length > 0 then
      .error "write pointer already has data defined"
    else
      .ok { o with
        Pointers := insertWP o.Pointers (trimSuf nameLC "data")
          { (lookupWP o.Pointers (trimSuf nameLC "data")).getD
              emptyWritePointer with Data := data } }

/-- `Writer.OnParam` (appconfig.go:443-468) combined with the parser's
unknown-parameter rejection: dispatch on the lower-cased name — `keybind`,
then the `pointer` suffix, then the `data` suffix. -/
def writerOnParam (o : Writer) (param : Param) : Except String Writer :=
  if lowerS param.name = "keybind" then
    match keybindFromStr param.value with
    | .error e => .error e
    | .ok k => .ok { o with Keybind := k }
  else if endsWithGo (lowerS param.name) "pointer" then
    addWriterPointer o param (lowerS param.name)
  else if endsWithGo (lowerS param.name) "data" then
    addData o param (lowerS param.name)
  else .error "unknown parameter"

def processWriterParams : Writer → List Param → Except String Writer
  | o, [] => .ok o
  | o, p :: rest =>
    match writerOnParam o p with
    | .error e => .error e
    | .ok o' => processWriterParams o' rest

/-- `WritePointer.validate` (appconfig.go:553-563). -/
def writePointerValidate (wp : WritePointer) : Except String Unit :=
  if wp.Pointer.Addrs = [] then .error "pointer not set"
  else if wp.Data = [] then .error "write data not provided"
  else .ok ()

/-- The per-entry loop of `Writer.Validate` (appconfig.go:475-487):
validate each write pointer, then reject nicknames already declared by a
previous `[Writer]` section. -/
def validateWritePointers (prev : List Writer) :
    List (String × WritePointer) → Except String Unit
  | [] => .ok ()
  | (name, wp) :: rest =>
    match writePointerValidate wp with
    | .error e => .error e
    | .ok _ =>
      if prev.any (fun w => (lookupWP w.Pointers name).isSome) then
        .error "already declared in a previous section"
      else validateWritePointers prev rest

/-- `Writer.Validate` (appconfig.go:470-496), up to the registration of
the validated section in the config. -/
def writerValidate (prev : List Writer) (o : Writer) : Except String Unit :=
  if o.Pointers.isEmpty then .error "no pointers provided"
  else validateWritePointers prev o.Pointers

/-- One `[Writer]` section as driven by `ini.ParseSchema`: handlers for
each parameter in order, the required-`keybind` check at section end, then
`Writer.Validate`. -/
def parseWriterSection (prev : List Writer) (params : List Param) :
    Except String Writer :=
  match processWriterParams ⟨[], 0⟩ params with
  | .error e => .error e
  | .ok o =>
    if params.any (fun p => lowerS p.name = "keybind") then
      match writerValidate prev o with
      | .error e => .error e
      | .ok _ => .ok o
    else .error "section is missing required param keybind"

theorem lookupWP_mem (l : List (String × WritePointer)) (k : String)
    (v : WritePointer) (h : lookupWP l k = some v) : (k, v) ∈ l := by
  induction l with
  | nil => exact absurd h (by simp [lookupWP])
  | cons kv rest ih =>
    by_cases hk : kv.1 = k
    · rw [lookupWP, if_pos hk] at h
      obtain ⟨k1, v1⟩ := kv
      rw [Option.some.injEq] at h
      refine List.mem_cons.mpr (Or.inl ?_)
      simp only at hk h
      rw [hk, h]
    · rw [lookupWP, if_neg hk] at h
      exact List.mem_cons_of_mem kv (ih h)

theorem lookupWP_append (l1 l2 : List (String × WritePointer)) (k : String) :
    lookupWP (l1 ++ l2) k
      = match lookupWP l1 k with
        | some v => some v
        | none => lookupWP l2 k := by
  induction l1 with
  | nil => rfl
  | cons kv rest ih =>
    by_cases hk : kv.1 = k
    · simp [lookupWP, hk]
    · simp [lookupWP, hk, ih]

theorem lookupWP_mapReplace_self (k : String) (wp : WritePointer) :
    ∀ l : List (String × WritePointer), (lookupWP l k).isSome →
      lookupWP (l.map (fun kv => if kv.1 = k then (k, wp) else kv)) k
        = some wp := by
  intro l
  induction l with
  | nil =>
    intro h
    exact absurd h (by simp [lookupWP])
  | cons kv rest ih =>
    intro h
    by_cases hk : kv.1 = k
    · simp [lookupWP, hk]
    · rw [lookupWP, if_neg hk] at h
      simp only [List.map_cons, if_neg hk, lookupWP]
      exact ih h

theorem lookupWP_mapReplace_ne (k k' : String) (wp : WritePointer)
    (hne : k' ≠ k) :
    ∀ l : List (String × WritePointer),
      lookupWP (l.map (fun kv => if kv.1 = k then (k, wp) else kv)) k'
        = lookupWP l k' := by
  intro l
  induction l with
  | nil => rfl
  | cons kv rest ih =>
    by_cases hk : kv.1 = k
    · simp only [List.map_cons, if_pos hk, lookupWP]
      rw [if_neg (fun h : k = k' => hne h.symm),
        if_neg (fun h : kv.1 = k' => hne (h.symm.trans hk))]
      exact ih
    · simp only [List.map_cons, if_neg hk, lookupWP]
      by_cases hk' : kv.1 = k'
      · rw [if_pos hk', if_pos hk']
      · rw [if_neg hk', if_neg hk']
        exact ih

theorem lookupWP_insertWP_self (l : List (String × WritePointer)) (k : String)
    (wp : WritePointer) : lookupWP (insertWP l k wp) k = some wp := by
  unfold insertWP
  cases hl : lookupWP l k with
  | none =>
    rw [lookupWP_append, hl]
    simp [lookupWP]
  | some v =>
    exact lookupWP_mapReplace_self k wp l (by rw [hl]; rfl)

theorem lookupWP_insertWP_ne (l : List (String × WritePointer)) (k k' : String)
    (wp : WritePointer) (hne : k' ≠ k) :
    lookupWP (insertWP l k wp) k' = lookupWP l k' := by
  unfold insertWP
  cases hl : lookupWP l k with
  | none =>
    rw [lookupWP_append]
    cases hl' : lookupWP l k' with
    | some v => rfl
    | none =>
      show lookupWP [(k, wp)] k' = none
      rw [lookupWP, if_neg (fun h : k = k' => hne h.symm)]
      rfl
  | some v =>
    exact lookupWP_mapReplace_ne k k' wp hne l

theorem lookupWP_insertWP_isSome_mono (l : List (String × WritePointer))
    (k k' : String) (wp : WritePointer)
    (h : (lookupWP l k').isSome) : (lookupWP (insertWP l k wp) k').isSome := by
  by_cases hk : k' = k
  · rw [hk, lookupWP_insertWP_self]
    rfl
  · rw [lookupWP_insertWP_ne l k k' wp hk]
    exact h

/-- The `Pointer` recorded for nickname `n` (zero-valued when absent). -/
def pointerAt (o : Writer) (n : String) : Pointer :=
  ((lookupWP o.Pointers n).getD emptyWritePointer).Pointer

/-- The payload recorded for nickname `n` (empty when absent). -/
def dataAt (o : Writer) (n : String) : List Nat :=
  ((lookupWP o.Pointers n).getD emptyWritePointer).Data

/-- A parameter that `Writer.OnParam` routes to `addWriterPointer` with
nickname `n`. -/
def isPointerParamFor (n : String) (p : Param) : Prop :=
  lowerS p.name ≠ "keybind" ∧ endsWithGo (lowerS p.name) "pointer" = true
    ∧ trimSuf (lowerS p.name) "pointer" = n

/-- A parameter that `Writer.OnParam` routes to `addData` with
nickname `n`. -/
def isDataParamFor (n : String) (p : Param) : Prop :=
  lowerS p.name ≠ "keybind" ∧ endsWithGo (lowerS p.name) "pointer" = false
    ∧ endsWithGo (lowerS p.name) "data" = true
    ∧ trimSuf (lowerS p.name) "data" = n

/-- Inversion of one successful `Writer.OnParam` step: either the keybind
was set (map untouched), a pointer was inserted at its nickname, or a
payload was inserted at its nickname. -/
theorem writerOnParam_inv (o o' : Writer) (p : Param)
    (h : writerOnParam o p = .ok o') :
    (lowerS p.name = "keybind" ∧ o'.Pointers = o.Pointers)
    ∨ (lowerS p.name ≠ "keybind" ∧ endsWithGo (lowerS p.name) "pointer" = true
        ∧ ∃ ptr, o'.Pointers
            = insertWP o.Pointers (trimSuf (lowerS p.name) "pointer")
                { (lookupWP o.Pointers (trimSuf (lowerS p.name) "pointer")).getD
                    emptyWritePointer with Pointer := ptr })
    ∨ (lowerS p.name ≠ "keybind" ∧ endsWithGo (lowerS p.name) "pointer" = false
        ∧ endsWithGo (lowerS p.name) "data" = true
        ∧ ∃ ds, o'.Pointers
            = insertWP o.Pointers (trimSuf (lowerS p.name) "data")
                { (lookupWP o.Pointers (trimSuf (lowerS p.name) "data")).getD
                    emptyWritePointer with Data := ds }) := by
  unfold writerOnParam at h
  by_cases hk : lowerS p.name = "keybind"
  · rw [if_pos hk] at h
    cases hkb : keybindFromStr p.value with
    | error e =>
      rw [hkb] at h
      exact absurd h (by simp)
    | ok k =>
      rw [hkb, Except.ok.injEq] at h
      exact Or.inl ⟨hk, by rw [← h]⟩
  · rw [if_neg hk] at h
    by_cases hpt : endsWithGo (lowerS p.name) "pointer" = true
    · rw [if_pos hpt] at h
      unfold addWriterPointer at h
      cases hpf : pointerFromParam p with
      | error e =>
        rw [hpf] at h
        exact absurd h (by simp)
      | ok ptr =>
        simp only [hpf] at h
        by_cases hdup : ((lookupWP o.Pointers
            (trimSuf (lowerS p.name) "pointer")).getD
              emptyWritePointer).Pointer.Name ≠ ""
        · rw [if_pos hdup] at h
          exact absurd h (by simp)
        · rw [if_neg hdup, Except.ok.injEq] at h
          exact Or.inr (Or.inl ⟨hk, hpt, ptr, by rw [← h]⟩)
    · rw [if_neg hpt] at h
      by_cases hd : endsWithGo (lowerS p.name) "data" = true
      · rw [if_pos hd] at h
        unfold addData at h
        cases hx : hexDecodePairs (normHexValue p.value).data with
        | none =>
          rw [hx] at h
          exact absurd h (by simp)
        | some ds =>
          simp only [hx] at h
          by_cases hdup : ((lookupWP o.Pointers
              (trimSuf (lowerS p.name) "data")).getD
                emptyWritePointer).Data.length > 0
          · rw [if_pos hdup] at h
            exact absurd h (by simp)
          · rw [if_neg hdup, Except.ok.injEq] at h
            exact Or.inr (Or.inr ⟨hk, Bool.not_eq_true _ ▸ hpt, hd, ds, by rw [← h]⟩)
      · rw [if_neg hd] at h
        exact absurd h (by simp)

theorem writerOnParam_pointerAt (o o' : Writer) (p : Param) (n : String)
    (h : writerOnParam o p = .ok o') (hnp : ¬ isPointerParamFor n p) :
    pointerAt o' n = pointerAt o n := by
  rcases writerOnParam_inv o o' p h with ⟨hk, hP⟩ | ⟨hk, hpt, ptr, hP⟩
    | ⟨hk, hptf, hd, ds, hP⟩
  · unfold pointerAt
    rw [hP]
  · have hnn : trimSuf (lowerS p.name) "pointer" ≠ n :=
      fun hEq => hnp ⟨hk, hpt, hEq⟩
    unfold pointerAt
    rw [hP, lookupWP_insertWP_ne _ _ _ _ (fun hEq => hnn hEq.symm)]
  · by_cases hnn : trimSuf (lowerS p.name) "data" = n
    · unfold pointerAt
      rw [hP, ← hnn, lookupWP_insertWP_self]
      rfl
    · unfold pointerAt
      rw [hP, lookupWP_insertWP_ne _ _ _ _ (fun hEq => hnn hEq.symm)]

theorem writerOnParam_dataAt (o o' : Writer) (p : Param) (n : String)
    (h : writerOnParam o p = .ok o') (hnd : ¬ isDataParamFor n p) :
    dataAt o' n = dataAt o n := by
  rcases writerOnParam_inv o o' p h with ⟨hk, hP⟩ | ⟨hk, hpt, ptr, hP⟩
    | ⟨hk, hptf, hd, ds, hP⟩
  · unfold dataAt
    rw [hP]
  · by_cases hnn : trimSuf (lowerS p.name) "pointer" = n
    · unfold dataAt
      rw [hP, ← hnn, lookupWP_insertWP_self]
      rfl
    · unfold dataAt
      rw [hP, lookupWP_insertWP_ne _ _ _ _ (fun hEq => hnn hEq.symm)]
  · have hnn : trimSuf (lowerS p.name) "data" ≠ n :=
      fun hEq => hnd ⟨hk, hptf, hd, hEq⟩
    unfold dataAt
    rw [hP, lookupWP_insertWP_ne _ _ _ _ (fun hEq => hnn hEq.symm)]

theorem writerOnParam_presence (o o' : Writer) (p : Param) (n : String)
    (h : writerOnParam o p = .ok o')
    (hs : (lookupWP o.Pointers n).isSome) : (lookupWP o'.Pointers n).isSome := by
  rcases writerOnParam_inv o o' p h with ⟨_, hP⟩ | ⟨_, _, ptr, hP⟩
    | ⟨_, _, _, ds, hP⟩
  · rw [hP]
    exact hs
  · rw [hP]
    exact lookupWP_insertWP_isSome_mono _ _ _ _ hs
  · rw [hP]
    exact lookupWP_insertWP_isSome_mono _ _ _ _ hs

theorem writerOnParam_data_creates (o o' : Writer) (p : Param) (n : String)
    (h : writerOnParam o p = .ok o') (hd : isDataParamFor n p) :
    (lookupWP o'.Pointers n).isSome := by
  rcases writerOnParam_inv o o' p h with ⟨hk, _⟩ | ⟨_, hpt, _, _⟩
    | ⟨_, _, _, ds, hP⟩
  · exact absurd hk hd.1
  · rw [hd.2.1] at hpt
    exact absurd hpt (by simp)
  · rw [hP, hd.2.2.2, lookupWP_insertWP_self]
    rfl

theorem writerOnParam_pointer_creates (o o' : Writer) (p : Param) (n : String)
    (h : writerOnParam o p = .ok o') (hp : isPointerParamFor n p) :
    (lookupWP o'.Pointers n).isSome := by
  rcases writerOnParam_inv o o' p h with ⟨hk, _⟩ | ⟨_, _, ptr, hP⟩
    | ⟨_, hptf, _, _, _⟩
  · exact absurd hk hp.1
  · rw [hP, hp.2.2, lookupWP_insertWP_self]
    rfl
  · rw [hp.2.1] at hptf
    exact absurd hptf (by simp)

theorem processWriterParams_pointerAt (n : String) :
    ∀ (ps : List Param) (o o' : Writer),
      processWriterParams o ps = .ok o' →
      (∀ p ∈ ps, ¬ isPointerParamFor n p) →
      pointerAt o' n = pointerAt o n := by
  intro ps
  induction ps with
  | nil =>
    intro o o' h _
    injection h with h2
    rw [h2]
  | cons p ps ih =>
    intro o o' h hnp
    cases hstep : writerOnParam o p with
    | error e =>
      simp only [processWriterParams, hstep] at h
      exact absurd h (by simp)
    | ok o1 =>
      simp only [processWriterParams, hstep] at h
      rw [ih o1 o' h (fun q hq => hnp q (List.mem_cons_of_mem p hq)),
        writerOnParam_pointerAt o o1 p n hstep (hnp p (List.mem_cons_self p ps))]

theorem processWriterParams_dataAt (n : String) :
    ∀ (ps : List Param) (o o' : Writer),
      processWriterParams o ps = .ok o' →
      (∀ p ∈ ps, ¬ isDataParamFor n p) →
      dataAt o' n = dataAt o n := by
  intro ps
  induction ps with
  | nil =>
    intro o o' h _
    injection h with h2
    rw [h2]
  | cons p ps ih =>
    intro o o' h hnd
    cases hstep : writerOnParam o p with
    | error e =>
      simp only [processWriterParams, hstep] at h
      exact absurd h (by simp)
    | ok o1 =>
      simp only [processWriterParams, hstep] at h
      rw [ih o1 o' h (fun q hq => hnd q (List.mem_cons_of_mem p hq)),
        writerOnParam_dataAt o o1 p n hstep (hnd p (List.mem_cons_self p ps))]

theorem processWriterParams_presence (n : String) :
    ∀ (ps : List Param) (o o' : Writer),
      processWriterParams o ps = .ok o' →
      (lookupWP o.Pointers n).isSome → (lookupWP o'.Pointers n).isSome := by
  intro ps
  induction ps with
  | nil =>
    intro o o' h hs
    injection h with h2
    rw [← h2]
    exact hs
  | cons p ps ih =>
    intro o o' h hs
    cases hstep : writerOnParam o p with
    | error e =>
      simp only [processWriterParams, hstep] at h
      exact absurd h (by simp)
    | ok o1 =>
      simp only [processWriterParams, hstep] at h
      exact ih o1 o' h (writerOnParam_presence o o1 p n hstep hs)

theorem processWriterParams_entry_of_data (n : String) :
    ∀ (ps : List Param) (o o' : Writer),
      processWriterParams o ps = .ok o' →
      (∃ p ∈ ps, isDataParamFor n p) →
      (lookupWP o'.Pointers n).isSome := by
  intro ps
  induction ps with
  | nil =>
    intro o o' _ hex
    obtain ⟨p, hp, _⟩ := hex
    exact absurd hp (List.not_mem_nil p)
  | cons p ps ih =>
    intro o o' h hex
    cases hstep : writerOnParam o p with
    | error e =>
      simp only [processWriterParams, hstep] at h
      exact absurd h (by simp)
    | ok o1 =>
      simp only [processWriterParams, hstep] at h
      obtain ⟨q, hq, hqd⟩ := hex
      rcases List.mem_cons.mp hq with rfl | hq'
      · exact processWriterParams_presence n ps o1 o' h
          (writerOnParam_data_creates o o1 q n hstep hqd)
      · exact ih o1 o' h ⟨q, hq', hqd⟩

theorem processWriterParams_entry_of_pointer (n : String) :
    ∀ (ps : List Param) (o o' : Writer),
      processWriterParams o ps = .ok o' →
      (∃ p ∈ ps, isPointerParamFor n p) →
      (lookupWP o'.Pointers n).isSome := by
  intro ps
  induction ps with
  | nil =>
    intro o o' _ hex
    obtain ⟨p, hp, _⟩ := hex
    exact absurd hp (List.not_mem_nil p)
  | cons p ps ih =>
    intro o o' h hex
    cases hstep : writerOnParam o p with
    | error e =>
      simp only [processWriterParams, hstep] at h
      exact absurd h (by simp)
    | ok o1 =>
      simp only [processWriterParams, hstep] at h
      obtain ⟨q, hq, hqp⟩ := hex
      rcases List.mem_cons.mp hq with rfl | hq'
      · exact processWriterParams_presence n ps o1 o' h
          (writerOnParam_pointer_creates o o1 q n hstep hqp)
      · exact ih o1 o' h ⟨q, hq', hqp⟩

theorem writePointerValidate_ok (wp : WritePointer)
    (h : writePointerValidate wp = .ok ()) :
    wp.Pointer.Addrs ≠ [] ∧ wp.Data ≠ [] := by
  unfold writePointerValidate at h
  by_cases h1 : wp.Pointer.Addrs = []
  · rw [if_pos h1] at h
    exact absurd h (by simp)
  · rw [if_neg h1] at h
    by_cases h2 : wp.Data = []
    · rw [if_pos h2] at h
      exact absurd h (by simp)
    · exact ⟨h1, h2⟩

theorem validateWritePointers_ok (prev : List Writer) :
    ∀ (l : List (String × WritePointer)),
      validateWritePointers prev l = .ok () →
      ∀ kv ∈ l, kv.2.Pointer.Addrs ≠ [] ∧ kv.2.Data ≠ [] := by
  intro l
  induction l with
  | nil =>
    intro _ kv hkv
    exact absurd hkv (List.not_mem_nil kv)
  | cons kv0 rest ih =>
    intro h kv hkv
    obtain ⟨name0, wp0⟩ := kv0
    cases hv : writePointerValidate wp0 with
    | error e =>
      simp only [validateWritePointers, hv] at h
      exact absurd h (by simp)
    | ok u =>
      cases u
      simp only [validateWritePointers, hv] at h
      by_cases hdup : prev.any (fun w => (lookupWP w.Pointers name0).isSome)
      · rw [if_pos hdup] at h
        exact absurd h (by simp)
      · rw [if_neg hdup] at h
        rcases List.mem_cons.mp hkv with rfl | hkv'
        · exact writePointerValidate_ok wp0 hv
        · exact ih h kv hkv'

theorem writerValidate_ok (prev : List Writer) (o : Writer)
    (h : writerValidate prev o = .ok ()) :
    ∀ kv ∈ o.Pointers, kv.2.Pointer.Addrs ≠ [] ∧ kv.2.Data ≠ [] := by
  unfold writerValidate at h
  by_cases he : o.Pointers.isEmpty
  · rw [if_pos he] at h
    exact absurd h (by simp)
  · rw [if_neg he] at h
    exact validateWritePointers_ok prev o.Pointers h

theorem parseWriterSection_inv (prev : List Writer) (params : List Param)
    (w : Writer) (h : parseWriterSection prev params = .ok w) :
    processWriterParams ⟨[], 0⟩ params = .ok w
      ∧ writerValidate prev w = .ok () := by
  unfold parseWriterSection at h
  cases hp : processWriterParams ⟨[], 0⟩ params with
  | error e =>
    simp only [hp] at h
    exact absurd h (by simp)
  | ok o =>
    simp only [hp] at h
    by_cases hreq : params.any (fun p => lowerS p.name = "keybind") = true
    · rw [if_pos hreq] at h
      cases hv : writerValidate prev o with
      | error e =>
        simp only [hv] at h
        exact absurd h (by simp)
      | ok u =>
        cases u
        simp only [hv] at h
        rw [Except.ok.injEq] at h
        rw [← h]
        exact ⟨rfl, hv⟩
    · rw [if_neg hreq] at h
      exact absurd h (by simp)

/-- **C10.** After a `[Writer]` section parses successfully, every
`WritePointer` in it has a non-empty offset list and a non-empty payload;
and a section containing a `<nickname>Data` parameter with no matching
`<nickname>Pointer` parameter — or a `<nickname>Pointer` with no matching
`<nickname>Data` — is rejected at section validation (cannot parse
successfully). -/
theorem writer_section_validation :
    (∀ (prev : List Writer) (params : List Param) (w : Writer),
        parseWriterSection prev params = .ok w →
        ∀ (n : String) (wp : WritePointer), lookupWP w.Pointers n = some wp →
          wp.Pointer.Addrs ≠ [] ∧ wp.Data ≠ [])
    ∧ (∀ (prev : List Writer) (params : List Param) (n : String),
        (∃ p ∈ params, isDataParamFor n p) →
        (∀ p ∈ params, ¬ isPointerParamFor n p) →
        ∀ w, parseWriterSection prev params ≠ .ok w)
    ∧ (∀ (prev : List Writer) (params : List Param) (n : String),
        (∃ p ∈ params, isPointerParamFor n p) →
        (∀ p ∈ params, ¬ isDataParamFor n p) →
        ∀ w, parseWriterSection prev params ≠ .ok w) := by
  have main1 : ∀ (prev : List Writer) (params : List Param) (w : Writer),
      parseWriterSection prev params = .ok w →
      ∀ (n : String) (wp : WritePointer), lookupWP w.Pointers n = some wp →
        wp.Pointer.Addrs ≠ [] ∧ wp.Data ≠ [] := by
    intro prev params w h n wp hl
    obtain ⟨_, hv⟩ := parseWriterSection_inv prev params w h
    exact writerValidate_ok prev w hv (n, wp) (lookupWP_mem _ _ _ hl)
  refine ⟨main1, ?_, ?_⟩
  · intro prev params n hdata hnoptr w hok
    obtain ⟨hp, _⟩ := parseWriterSection_inv prev params w hok
    obtain ⟨wp, hwp⟩ := Option.isSome_iff_exists.mp
      (processWriterParams_entry_of_data n params ⟨[], 0⟩ w hp hdata)
    have hwpP : wp.Pointer = pointerAt w n := by
      unfold pointerAt
      rw [hwp]
      rfl
    have hempty : wp.Pointer.Addrs = [] := by
      rw [hwpP, processWriterParams_pointerAt n params ⟨[], 0⟩ w hp hnoptr]
      rfl
    exact absurd hempty (main1 prev params w hok n wp hwp).1
  · intro prev params n hptr hnodata w hok
    obtain ⟨hp, _⟩ := parseWriterSection_inv prev params w hok
    obtain ⟨wp, hwp⟩ := Option.isSome_iff_exists.mp
      (processWriterParams_entry_of_pointer n params ⟨[], 0⟩ w hp hptr)
    have hwpD : wp.Data = dataAt w n := by
      unfold dataAt
      rw [hwp]
      rfl
    have hempty : wp.Data = [] := by
      rw [hwpD, processWriterParams_dataAt n params ⟨[], 0⟩ w hp hnodata]
      rfl
    exact absurd hempty (main1 prev params w hok n wp hwp).2

/-- A concrete well-formed `[Writer]` section. -/
def wParams : List Param :=
  [⟨"keybind", "p"⟩, ⟨"posPointer", "0x10 0x8"⟩, ⟨"posData", "CAFE"⟩]

/-- The writer that section parses to. -/
def wWriter : Writer :=
  ⟨[("pos", ⟨⟨"posPointer", [16, 8], 0, ""⟩, [202, 254]⟩)], 112⟩

theorem writer_section_validation_witness :
    parseWriterSection [] wParams = .ok wWriter
      ∧ lookupWP wWriter.Pointers "pos"
          = some ⟨⟨"posPointer", [16, 8], 0, ""⟩, [202, 254]⟩
      ∧ ((⟨⟨"posPointer", [16, 8], 0, ""⟩, [202, 254]⟩ : WritePointer).Pointer.Addrs ≠ []
          ∧ (⟨⟨"posPointer", [16, 8], 0, ""⟩, [202, 254]⟩ : WritePointer).Data ≠ []) :=
  ⟨rfl, rfl, writer_section_validation.1 [] wParams wWriter rfl "pos" _ rfl⟩

end Blaj
